import Mathlib

/-!
Verification development for the quantum five-in-a-row ("quantum gomoku") game
engine.  The definitions below are a shallow embedding of the TypeScript
sources: `gameLogic.ts` (the win detector `checkWin`, the heuristic opponent
`getCpuMove` / `evaluatePoint`) and `useQuantumGame.ts` (the engine actions
`placeStone`, `endTurn`, `observeBoard`, `undo`, `selectStone`, `resetGame`,
the CPU placement phase and the no-winner revert effects).  Probabilities are
modelled as rationals, the `Math.random()` draws as explicit parameters, and
the asynchronous timer callbacks as separate state-transition functions.
-/

/- The rational arithmetic of the embedding must evaluate under `decide` on
the concrete boards below; the batteries library seals these operations, so
they are reopened for this file. -/
attribute [local semireducible] Rat.mul Rat.add Rat.sub Rat.inv

/-- The two stone colors (TypeScript `Player = 'Black' | 'White'`). -/
inductive Player where
  | Black
  | White
deriving DecidableEq, Repr

/-- Game modes (TypeScript `'PvP' | 'PvE' | 'Online'`; the `Online` value is
added to the declared union by the networked code paths). -/
inductive GameMode where
  | PvP
  | PvE
  | Online
deriving DecidableEq, Repr

/-- A placed stone: the probability of resolving to Black, and the resolved
color once observed (TypeScript interface `Stone`). -/
structure Stone where
  probability : ℚ
  observedColor : Option Player := none
deriving DecidableEq, Repr

/-- A board cell: a stone or empty (TypeScript `CellState = Stone | null`). -/
abbrev CellState := Option Stone

/-- The board: rows of cells (TypeScript `BoardState = CellState[][]`).
Rows or cells missing from the literal are read as empty, mirroring the
`undefined`-is-falsy reads of the JavaScript code. -/
abbrev BoardState := List (List CellState)

/-- `BOARD_SIZE` from `constants.ts`. -/
def BOARD_SIZE : Nat := 15

/-- `STONE_PROBABILITIES` from `constants.ts`: Black uses 0.9 / 0.7 and White
uses 0.3 / 0.1, indexed by the selected strength. -/
def STONE_PROBABILITIES (p : Player) (i : Fin 2) : ℚ :=
  match p with
  | Player.Black => if i = 0 then 9/10 else 7/10
  | Player.White => if i = 0 then 3/10 else 1/10

/-- Read the cell at natural-number coordinates, empty when out of range
(JavaScript `board[row][col]` with `undefined` treated as empty). -/
def cellAtNat (board : BoardState) (row col : Nat) : CellState :=
  (board.getD row []).getD col none

/-- The four scan directions of `checkWin`: horizontal, vertical, diagonal
and anti-diagonal. -/
def directions : List (Int × Int) := [(0, 1), (1, 0), (1, 1), (1, -1)]

/-- The resolved color at integer coordinates, `none` when out of the fixed
`BOARD_SIZE` bounds or when the cell is empty or unobserved.  This models the
guarded access `nextR >= 0 && nextR < BOARD_SIZE && ... &&
board[nextR][nextC]?.observedColor` of `checkWin`. -/
def obsAt (board : BoardState) (r c : Int) : Option Player :=
  if 0 ≤ r ∧ r < (BOARD_SIZE : Int) ∧ 0 ≤ c ∧ c < (BOARD_SIZE : Int) then
    (cellAtNat board r.toNat c.toNat).bind Stone.observedColor
  else
    none

/-- The inner counting loop of `checkWin`: starting at step `i`, count up to
`fuel` further cells in direction `d` while they stay in bounds and carry the
resolved color `p` (the loop `for (let i = 1; i < 5; i++) ... else break`). -/
def countConsec (board : BoardState) (p : Player) (r c : Int) (d : Int × Int) :
    Nat → Int → Nat
  | 0, _ => 0
  | Nat.succ fuel, i =>
    if obsAt board (r + d.1 * i) (c + d.2 * i) = some p then
      1 + countConsec board p r c d fuel (i + 1)
    else
      0

/-- The run length found by `checkWin` at origin `(r, c)` in direction `d`:
the origin counts 1 and up to 4 further matching cells are added. -/
def countDir (board : BoardState) (p : Player) (r c : Int) (d : Int × Int) : Nat :=
  1 + countConsec board p r c d 4 1

/-- The 5-cell window pushed by `checkWin` when a run of length ≥ 5 is found:
`line.push({row: r + dir.r * k, col: c + dir.c * k})` for `k = 0..4`. -/
def lineWindow (r c : Int) (d : Int × Int) : List (Int × Int) :=
  (List.range 5).map (fun (k : Nat) => (r + d.1 * (k : Int), c + d.2 * (k : Int)))

/-- The mutable scan state of `checkWin`: the two win flags and the two
accumulated coordinate lists. -/
structure ScanState where
  blackWins : Bool
  whiteWins : Bool
  blackLines : List (Int × Int)
  whiteLines : List (Int × Int)
deriving DecidableEq, Repr

/-- The scan state before the loops of `checkWin`. -/
def initScan : ScanState :=
  { blackWins := false, whiteWins := false, blackLines := [], whiteLines := [] }

/-- Record a winning window for player `p`: set the player's win flag and
append the window to the player's line list. -/
def pushLine (st : ScanState) (p : Player) (line : List (Int × Int)) : ScanState :=
  match p with
  | Player.Black => { st with blackWins := true, blackLines := st.blackLines ++ line }
  | Player.White => { st with whiteWins := true, whiteLines := st.whiteLines ++ line }

/-- The win flag of player `p` (the `blackWins` / `whiteWins` variables). -/
def winFlag (p : Player) (st : ScanState) : Bool :=
  match p with
  | Player.Black => st.blackWins
  | Player.White => st.whiteWins

/-- Processing of one direction at a scan cell: if the run length reaches 5,
push the 5-cell window and mark the player as winning. -/
def processDir (board : BoardState) (p : Player) (r c : Int) (st : ScanState)
    (d : Int × Int) : ScanState :=
  if 5 ≤ countDir board p r c d then pushLine st p (lineWindow r c d) else st

/-- Processing of one board cell by `checkWin`: skip unobserved cells, skip a
cell whose player already won (the two `continue` statements), otherwise try
all four directions. -/
def processCell (board : BoardState) (st : ScanState) (r c : Int) : ScanState :=
  match obsAt board r c with
  | none => st
  | some p =>
    if winFlag p st then st
    else directions.foldl (processDir board p r c) st

/-- The inner column loop of `checkWin` over one row. -/
def processRow (board : BoardState) (st : ScanState) (r : Int) : ScanState :=
  (List.range BOARD_SIZE).foldl (fun s (cNat : Nat) => processCell board s r (cNat : Int)) st

/-- The outer row loop of `checkWin`, including the early exit
`if (blackWins && whiteWins) break;` after each row. -/
def scanRows (board : BoardState) : List Nat → ScanState → ScanState
  | [], st => st
  | r :: rs, st =>
    let st2 := processRow board st (r : Int)
    if st2.blackWins && st2.whiteWins then st2 else scanRows board rs st2

/-- The full board scan of `checkWin`. -/
def checkWinScan (board : BoardState) : ScanState :=
  scanRows board (List.range BOARD_SIZE) initScan

/-- `checkWin` from `gameLogic.ts`: the winner (the observer on a double win,
`none` when the observer is absent) and the winner's accumulated coordinate
list. -/
def checkWin (board : BoardState) (observer : Option Player) :
    Option Player × Option (List (Int × Int)) :=
  let st := checkWinScan board
  let winner : Option Player :=
    if st.blackWins && st.whiteWins then observer
    else if st.blackWins then some Player.Black
    else if st.whiteWins then some Player.White
    else none
  let winningLine : Option (List (Int × Int)) :=
    match winner with
    | some Player.Black => some st.blackLines
    | some Player.White => some st.whiteLines
    | none => none
  (winner, winningLine)

/-- Specification-side predicate (from the spec's words): the five cells of
the window starting at `(r, c)` in direction `d` are all resolved to `p`. -/
def hasRunAt (board : BoardState) (p : Player) (r c : Nat) (d : Int × Int) : Bool :=
  (List.range 5).all
    (fun k => decide (obsAt board ((r : Int) + d.1 * k) ((c : Int) + d.2 * k) = some p))

/-- Specification-side predicate: some axis-aligned window of five cells is
entirely resolved to color `p` (a run of at least five resolved stones). -/
def existsRun (board : BoardState) (p : Player) : Bool :=
  (List.range BOARD_SIZE).any (fun r =>
    (List.range BOARD_SIZE).any (fun c =>
      directions.any (fun d => hasRunAt board p r c d)))

/-- The opposing color (`me === 'Black' ? 'White' : 'Black'`). -/
def opponent (p : Player) : Player :=
  match p with
  | Player.Black => Player.White
  | Player.White => Player.Black

/-- The probability that a placed stone resolves to `targetColor`
(`targetColor === 'Black' ? cell.probability : 1 - cell.probability` in
`evaluatePoint`). -/
def probFor (targetColor : Player) (cell : Stone) : ℚ :=
  if targetColor = Player.Black then cell.probability else 1 - cell.probability

/-- One arm of the extension loop of `evaluatePoint`: starting at step `i`,
walk in direction `(dr, dc)` scaled by `sgn`, stopping at the board edge, an
empty cell, or a stone whose probability of being the target color is below
0.4; return the accumulated probability sum and stone count of this arm. -/
def scanSign (board : BoardState) (targetColor : Player) (r c dr dc sgn : Int) :
    Nat → Int → ℚ × Nat
  | 0, _ => (0, 0)
  | Nat.succ fuel, i =>
    let nr := r + dr * i * sgn
    let nc := c + dc * i * sgn
    if nr < 0 ∨ (board.length : Int) ≤ nr ∨ nc < 0 ∨ (board.length : Int) ≤ nc then
      (0, 0)
    else
      match cellAtNat board nr.toNat nc.toNat with
      | none => (0, 0)
      | some cell =>
        let prob := probFor targetColor cell
        if prob < 2/5 then (0, 0)
        else
          let rest := scanSign board targetColor r c dr dc sgn fuel (i + 1)
          (prob + rest.1, rest.2 + 1)

/-- The per-direction score of `evaluatePoint`: the candidate cell counts as a
fully resolved stone (probability weight 1), both arms are accumulated, and
the run length is scored 10000 / 1000 / 100 / 10 times the probability sum. -/
def evalDir (board : BoardState) (targetColor : Player) (r c dr dc : Int) : ℚ :=
  let pos := scanSign board targetColor r c dr dc 1 4 1
  let neg := scanSign board targetColor r c dr dc (-1) 4 1
  let currentProbSum : ℚ := 1 + pos.1 + neg.1
  let stoneCount : Nat := 1 + pos.2 + neg.2
  if 5 ≤ stoneCount then 10000 * currentProbSum
  else if stoneCount = 4 then 1000 * currentProbSum
  else if stoneCount = 3 then 100 * currentProbSum
  else if stoneCount = 2 then 10 * currentProbSum
  else 0

/-- `evaluatePoint` from `gameLogic.ts`: the importance of placing at
`(r, c)` for `me`, attacking (`isAttack`) or blocking the opponent, summed
over the four axis directions. -/
def evaluatePoint (board : BoardState) (r c : Int) (me : Player) (isAttack : Bool) : ℚ :=
  let targetColor := if isAttack then me else opponent me
  directions.foldl (fun acc d => acc + evalDir board targetColor r c d.1 d.2) 0

/-- The total score assigned by `getCpuMove` to an empty cell: attack weight
1.0, defense weight 1.2, plus the centrality bonus `(10 - dist) * 0.1` with
`dist` the Manhattan distance to `Math.floor(size / 2)`. -/
def totalScore (board : BoardState) (cpuColor : Player) (r c : Nat) : ℚ :=
  let attackScore := evaluatePoint board r c cpuColor true
  let defenseScore := evaluatePoint board r c cpuColor false
  let center : Int := (board.length / 2 : Nat)
  let dist : Nat := ((r : Int) - center).natAbs + ((c : Int) - center).natAbs
  attackScore * 1 + defenseScore * (6/5) + (10 - (dist : ℚ)) * (1/10)

/-- The accumulator of the cell loop in `getCpuMove`: the best score so far
(`none` models the `-Infinity` initial value) and the near-tied best moves. -/
structure CpuAcc where
  maxScore : Option ℚ
  bestMoves : List (Nat × Nat)
deriving DecidableEq, Repr

/-- One iteration of the cell loop of `getCpuMove`: skip occupied cells;
a strictly better score resets the candidate list, a score within 0.001 of
the maximum is appended. -/
def stepCell (board : BoardState) (cpuColor : Player) (acc : CpuAcc)
    (rc : Nat × Nat) : CpuAcc :=
  if (cellAtNat board rc.1 rc.2).isSome then acc
  else
    let score := totalScore board cpuColor rc.1 rc.2
    match acc.maxScore with
    | none => { maxScore := some score, bestMoves := [rc] }
    | some m =>
      if m < score then { maxScore := some score, bestMoves := [rc] }
      else if |score - m| < 1/1000 then { acc with bestMoves := acc.bestMoves ++ [rc] }
      else acc

/-- Row-major list of all cell coordinates of a `size × size` board, the
iteration order of the nested loops of `getCpuMove`. -/
def allCellsList (size : Nat) : List (Nat × Nat) :=
  (List.range size).flatMap (fun r => (List.range size).map (fun c => (r, c)))

/-- The accumulator after the full cell scan of `getCpuMove`. -/
def getCpuMoveAcc (board : BoardState) (cpuColor : Player) : CpuAcc :=
  (allCellsList board.length).foldl (stepCell board cpuColor)
    { maxScore := none, bestMoves := [] }

/-- `getCpuMove` from `gameLogic.ts`.  The final uniformly random choice
`bestMoves[Math.floor(Math.random() * bestMoves.length)]` is modelled by the
explicit index parameter `pick`, reduced modulo the candidate count. -/
def getCpuMove (board : BoardState) (cpuColor : Player) (pick : Nat) :
    Option (Nat × Nat) :=
  let acc := getCpuMoveAcc board cpuColor
  if acc.bestMoves.isEmpty then none
  else acc.bestMoves[pick % acc.bestMoves.length]?

/-- Specification-side list of the empty cells of the board, in the scan
order of `getCpuMove`. -/
def emptyCellsList (board : BoardState) : List (Nat × Nat) :=
  (allCellsList board.length).filter (fun rc => decide (cellAtNat board rc.1 rc.2 = none))

/-- Specification-side maximum of a list of rationals. -/
def maxOfList : List ℚ → Option ℚ
  | [] => none
  | x :: xs =>
    match maxOfList xs with
    | none => some x
    | some m => some (max x m)

/-- Specification-side list of the heuristic scores of all empty cells. -/
def cpuScores (board : BoardState) (cpuColor : Player) : List ℚ :=
  (emptyCellsList board).map (fun rc => totalScore board cpuColor rc.1 rc.2)

/-- Proof invariant of the cell loop of `getCpuMove` over the processed
prefix `pre`: the running maximum is the maximum score of the empty cells
seen so far, every recorded candidate is an empty processed cell, the
candidate list is empty exactly when no empty cell was seen, and every
recorded candidate scores within 0.001 of the running maximum. -/
def cpuInv (board : BoardState) (cpuColor : Player) (pre : List (Nat × Nat))
    (acc : CpuAcc) : Prop :=
  acc.maxScore = maxOfList
      ((pre.filter (fun rc => decide (cellAtNat board rc.1 rc.2 = none))).map
        (fun rc => totalScore board cpuColor rc.1 rc.2))
  ∧ (∀ rc ∈ acc.bestMoves, rc ∈ pre ∧ cellAtNat board rc.1 rc.2 = none)
  ∧ (acc.bestMoves = [] ↔ acc.maxScore = none)
  ∧ (∀ m, acc.maxScore = some m → ∀ rc ∈ acc.bestMoves,
      |totalScore board cpuColor rc.1 rc.2 - m| < 1/1000)

/-- The game state held by `useQuantumGame` (the `GameState` interface plus
the fields the hook actually stores: confirmation mode, pending stone,
winning line and the reverting flag). -/
structure GameState where
  board : BoardState
  gameMode : GameMode
  cpuColor : Option Player
  currentPlayer : Player
  selectedStoneIndex : Fin 2
  lastBlackStoneIndex : Option (Fin 2)
  lastWhiteStoneIndex : Option (Fin 2)
  blackObservationCount : Int
  whiteObservationCount : Int
  isStonePlaced : Bool
  winner : Option Player
  isGameOver : Bool
  isObserving : Bool
  isCollapsing : Bool
  showNoWinnerMessage : Bool
  confirmPlacementMode : Bool
  pendingStone : Option (Nat × Nat)
  winningLine : Option (List (Int × Int))
  isReverting : Bool
deriving DecidableEq, Repr

/-- `createInitialState` from `useQuantumGame.ts`. -/
def createInitialState : GameState where
  board := List.replicate BOARD_SIZE (List.replicate BOARD_SIZE none)
  gameMode := GameMode.PvP
  cpuColor := none
  currentPlayer := Player.Black
  selectedStoneIndex := 0
  lastBlackStoneIndex := none
  lastWhiteStoneIndex := none
  blackObservationCount := 5
  whiteObservationCount := 5
  isStonePlaced := false
  winner := none
  isGameOver := false
  isObserving := false
  isCollapsing := false
  showNoWinnerMessage := false
  confirmPlacementMode := false
  pendingStone := none
  winningLine := none
  isReverting := false

/-- The hook's full local state: the current `gameState` and the undo
`history` stack (most recent frame last, as the JavaScript array). -/
structure EngineState where
  game : GameState
  history : List GameState
deriving DecidableEq, Repr

/-- The state of the hook right after mounting. -/
def initialEngineState : EngineState where
  game := createInitialState
  history := []

/-- `performUndo` from `useQuantumGame.ts`: the most recent history frame
(`currentHistory[currentHistory.length - 1]`, absent on an empty stack) and
the remaining history (`slice(0, -1)`). -/
def performUndo (currentHistory : List GameState) :
    Option GameState × List GameState :=
  (currentHistory.getLast?, currentHistory.dropLast)

/-- `calculateNextTurnState` from `useQuantumGame.ts`, modelled as the merge
of the returned partial state into the current state: rotate the player,
pick the default strength avoiding the forbidden repeated index, and clear
the placement flag. -/
def calculateNextTurnState (s : GameState) : GameState :=
  let nextPlayer := if s.currentPlayer = Player.Black then Player.White else Player.Black
  let nextSelected : Fin 2 :=
    if nextPlayer = Player.Black then
      if s.lastBlackStoneIndex = some 0 then 1 else 0
    else
      if s.lastWhiteStoneIndex = some 1 then 0 else 1
  { s with currentPlayer := nextPlayer, selectedStoneIndex := nextSelected,
           isStonePlaced := false }

/-- `selectStone` from `useQuantumGame.ts`: unconditionally record the
selected strength index. -/
def selectStone (index : Fin 2) (s : GameState) : GameState :=
  { s with selectedStoneIndex := index }

/-- `toggleConfirmMode` from `useQuantumGame.ts`. -/
def toggleConfirmMode (s : GameState) : GameState :=
  { s with confirmPlacementMode := !s.confirmPlacementMode, pendingStone := none }

/-- Write one cell of the board (the copy-and-assign
`newBoard[row][col] = ...` of `placeStone`). -/
def setCell (board : BoardState) (row col : Nat) (v : CellState) : BoardState :=
  board.set row ((board.getD row []).set col v)

/-- `placeStone` from `useQuantumGame.ts`.  `myColor` is the hook's local
identity used by the networked-turn guard.  Invalid calls return the state
unchanged; in confirmation mode a first click only records the pending
coordinate. -/
def placeStone (myColor : Option Player) (row col : Nat) (es : EngineState) :
    EngineState :=
  let prev := es.game
  if prev.gameMode = GameMode.Online ∧ some prev.currentPlayer ≠ myColor then es
  else if prev.isGameOver ∨ prev.isObserving ∨ prev.isCollapsing ∨ prev.isStonePlaced
      ∨ (cellAtNat prev.board row col).isSome then es
  else if prev.confirmPlacementMode ∧ prev.pendingStone ≠ some (row, col) then
    { es with game := { prev with pendingStone := some (row, col) } }
  else
    let hist := if prev.gameMode ≠ GameMode.Online then es.history ++ [prev] else es.history
    let probability := STONE_PROBABILITIES prev.currentPlayer prev.selectedStoneIndex
    let newBoard := setCell prev.board row col (some { probability := probability })
    let newLastBlack :=
      if prev.currentPlayer = Player.Black then some prev.selectedStoneIndex
      else prev.lastBlackStoneIndex
    let newLastWhite :=
      if prev.currentPlayer = Player.White then some prev.selectedStoneIndex
      else prev.lastWhiteStoneIndex
    { game := { prev with
        board := newBoard
        lastBlackStoneIndex := newLastBlack
        lastWhiteStoneIndex := newLastWhite
        isStonePlaced := true
        pendingStone := none },
      history := hist }

/-- `endTurn` from `useQuantumGame.ts`: apart from the networked-turn guard
it unconditionally snapshots the state and applies the next-turn rotation. -/
def endTurn (myColor : Option Player) (es : EngineState) : EngineState :=
  let prev := es.game
  if prev.gameMode = GameMode.Online ∧ some prev.currentPlayer ≠ myColor then es
  else
    let hist := if prev.gameMode ≠ GameMode.Online then es.history ++ [prev] else es.history
    { game := calculateNextTurnState prev, history := hist }

/-- The observation count of the player to move
(`currentPlayer === 'Black' ? blackObservationCount : whiteObservationCount`). -/
def currentObservationCount (s : GameState) : Int :=
  if s.currentPlayer = Player.Black then s.blackObservationCount
  else s.whiteObservationCount

/-- Collapse one cell: a stone independently resolves by comparing its
per-cell draw with its probability
(`Math.random() < cell.probability ? 'Black' : 'White'`). -/
def collapseCell (draw : Nat → Nat → ℚ) (r c : Nat) (cell : CellState) : CellState :=
  match cell with
  | none => none
  | some st =>
    let color := if draw r c < st.probability then Player.Black else Player.White
    some { st with observedColor := some color }

/-- Collapse one row of cells, threading the column index.  `draw r c` is the
uniform draw used for cell `(r, c)`. -/
def collapseCells (draw : Nat → Nat → ℚ) (r : Nat) : Nat → List CellState → List CellState
  | _, [] => []
  | c, cell :: rest => collapseCell draw r c cell :: collapseCells draw r (c + 1) rest

/-- Collapse the rows of the board, threading the row index. -/
def collapseRowsFrom (draw : Nat → Nat → ℚ) : Nat → List (List CellState) → BoardState
  | _, [] => []
  | r, row :: rest => collapseCells draw r 0 row :: collapseRowsFrom draw (r + 1) rest

/-- The observed board built by the collapse timeout of `observeBoard`. -/
def collapseBoard (draw : Nat → Nat → ℚ) (board : BoardState) : BoardState :=
  collapseRowsFrom draw 0 board

/-- The collapse-timeout callback of `observeBoard`: abort if the collapsing
flag was cleared, otherwise resolve every stone, run the win detector with
the current player as tiebreak observer, decrement the observer's count, and
branch on the winner. -/
def observeBoardResolve (draw : Nat → Nat → ℚ) (es : EngineState) : EngineState :=
  let prev := es.game
  if prev.isCollapsing = false then es
  else
    let observedBoard := collapseBoard draw prev.board
    let result := checkWin observedBoard (some prev.currentPlayer)
    let newBlackCount :=
      if prev.currentPlayer = Player.Black then prev.blackObservationCount - 1
      else prev.blackObservationCount
    let newWhiteCount :=
      if prev.currentPlayer = Player.White then prev.whiteObservationCount - 1
      else prev.whiteObservationCount
    match result.1 with
    | some w =>
      { es with game := { prev with
          board := observedBoard
          winner := some w
          isGameOver := true
          winningLine := result.2
          isObserving := false
          isCollapsing := false
          showNoWinnerMessage := false
          blackObservationCount := newBlackCount
          whiteObservationCount := newWhiteCount } }
    | none =>
      { es with game := { prev with
          board := observedBoard
          winner := none
          isGameOver := false
          winningLine := none
          isObserving := true
          isCollapsing := false
          showNoWinnerMessage := true
          blackObservationCount := newBlackCount
          whiteObservationCount := newWhiteCount } }

/-- `observeBoard` from `useQuantumGame.ts`, with the scheduled collapse
timeout already run (sequential model of the 1-second delay): the guards
reject finished games, ongoing collapses, foreign networked turns, missing
placements, ongoing observations and exhausted budgets; otherwise the state
is snapshot to history, the collapsing flag set, and the collapse resolved. -/
def observeBoard (myColor : Option Player) (draw : Nat → Nat → ℚ)
    (es : EngineState) : EngineState :=
  let s := es.game
  if s.isGameOver ∨ s.isCollapsing then es
  else if s.gameMode = GameMode.Online ∧ some s.currentPlayer ≠ myColor then es
  else if ¬s.isStonePlaced ∨ s.isObserving then es
  else if currentObservationCount s ≤ 0 then es
  else
    let hist := if s.gameMode ≠ GameMode.Online then es.history ++ [s] else es.history
    observeBoardResolve draw { game := { s with isCollapsing := true }, history := hist }

/-- Clear the resolved color of one cell
(`{ ...cell, observedColor: undefined }`). -/
def clearObserved (cell : CellState) : CellState :=
  match cell with
  | none => none
  | some st => some { st with observedColor := none }

/-- Clear the resolved color of every stone (the reverted board built by the
no-winner effect). -/
def revertBoard (board : BoardState) : BoardState :=
  board.map (fun row => row.map clearObserved)

/-- The first no-winner effect of the hook (2-second timer): when the
no-winner message is showing, revert the board and start the revert
animation. -/
def noWinnerRevertEffect (es : EngineState) : EngineState :=
  let s := es.game
  if s.showNoWinnerMessage = false then es
  else
    { es with game := { s with
        board := revertBoard s.board
        isObserving := false
        isReverting := true
        showNoWinnerMessage := false } }

/-- The second no-winner effect of the hook (0.5-second timer): when the
revert animation is running, finish it and apply the next-turn rotation. -/
def revertTurnEndEffect (es : EngineState) : EngineState :=
  let s := es.game
  if s.isReverting = false then es
  else
    { es with game := { calculateNextTurnState s with isReverting := false } }

/-- The while loop of `undo` in heuristic mode, with an explicit fuel
argument for structural recursion: keep popping while frames remain and the
restored frame is the heuristic color's turn or has its placement flag set.
Each iteration shortens the history by one, so fuel equal to the history
length makes the fuel-exhausted branch coincide with the empty-history
exit. -/
def undoWhileFuel (cpu : Player) : Nat → GameState → List GameState →
    GameState × List GameState
  | 0, st, h => (st, h)
  | Nat.succ fuel, st, h =>
    match h.getLast? with
    | none => (st, h)
    | some last =>
      if st.currentPlayer = cpu ∨ st.isStonePlaced then
        undoWhileFuel cpu fuel last h.dropLast
      else
        (st, h)

/-- The while loop of `undo` in heuristic mode. -/
def undoWhile (cpu : Player) (st : GameState) (h : List GameState) :
    GameState × List GameState :=
  undoWhileFuel cpu h.length st h

/-- `undo` from `useQuantumGame.ts`: disabled in networked mode and on an
empty history; otherwise pop one frame and, in heuristic mode, keep popping
while the restored frame is a CPU-turn or mid-placement state. -/
def undo (es : EngineState) : EngineState :=
  if es.game.gameMode = GameMode.Online then es
  else
    match performUndo es.history with
    | (none, _) => es
    | (some st0, h0) =>
      match es.game.gameMode, es.game.cpuColor with
      | GameMode.PvE, some cpu =>
        let res := undoWhile cpu st0 h0
        { game := res.1, history := res.2 }
      | _, _ => { game := st0, history := h0 }

/-- `resetGame` from `useQuantumGame.ts`: back to the initial state, keeping
the mode and CPU color when the call does not supply them, and clearing the
history. -/
def resetGame (mode : Option GameMode) (cpuColor : Option (Option Player))
    (es : EngineState) : EngineState where
  game := { createInitialState with
            gameMode := mode.getD es.game.gameMode,
            cpuColor := cpuColor.getD es.game.cpuColor }
  history := []

/-- The CPU placement phase of the hook (the phase-1 timer body): under the
effect's guard conditions, snapshot the state, pick the strength avoiding
the forbidden repetition (`selRand` models the coin flip), ask `getCpuMove`
for a target (`pick` models its random tie-break), and place the stone.  The
snapshot happens before the `if (!target) return;` early exit, exactly as in
the source. -/
def cpuPlaceStone (selRand : Fin 2) (pick : Nat) (es : EngineState) : EngineState :=
  let s := es.game
  if s.gameMode = GameMode.PvE ∧ s.cpuColor = some s.currentPlayer
      ∧ ¬s.isGameOver ∧ ¬s.isCollapsing ∧ ¬s.isReverting
      ∧ ¬s.isStonePlaced ∧ ¬s.isObserving then
    let hist := es.history ++ [s]
    let isCpuBlack := s.currentPlayer = Player.Black
    let lastCpuIndex := if isCpuBlack then s.lastBlackStoneIndex else s.lastWhiteStoneIndex
    let selectedIndex : Fin 2 :=
      if isCpuBlack then
        if lastCpuIndex = some 0 then 1 else selRand
      else
        if lastCpuIndex = some 1 then 0 else selRand
    match getCpuMove s.board s.currentPlayer pick with
    | none => { es with history := hist }
    | some target =>
      let probability := STONE_PROBABILITIES s.currentPlayer selectedIndex
      let newBoard := setCell s.board target.1 target.2 (some { probability := probability })
      let newLastBlack := if isCpuBlack then some selectedIndex else s.lastBlackStoneIndex
      let newLastWhite := if ¬isCpuBlack then some selectedIndex else s.lastWhiteStoneIndex
      { game := { s with
          board := newBoard
          lastBlackStoneIndex := newLastBlack
          lastWhiteStoneIndex := newLastWhite
          isStonePlaced := true },
        history := hist }
  else es

/-- One engine step: any action entry point of the hook, any timer callback,
with arbitrary parameters and random draws. -/
inductive EngineStep : EngineState → EngineState → Prop where
  | place (myColor : Option Player) (row col : Nat) (es : EngineState) :
      EngineStep es (placeStone myColor row col es)
  | select (index : Fin 2) (es : EngineState) :
      EngineStep es { es with game := selectStone index es.game }
  | toggle (es : EngineState) :
      EngineStep es { es with game := toggleConfirmMode es.game }
  | endTurnStep (myColor : Option Player) (es : EngineState) :
      EngineStep es (endTurn myColor es)
  | observe (myColor : Option Player) (draw : Nat → Nat → ℚ) (es : EngineState) :
      EngineStep es (observeBoard myColor draw es)
  | resolve (draw : Nat → Nat → ℚ) (es : EngineState) :
      EngineStep es (observeBoardResolve draw es)
  | revertStep (es : EngineState) :
      EngineStep es (noWinnerRevertEffect es)
  | revertTurnEnd (es : EngineState) :
      EngineStep es (revertTurnEndEffect es)
  | cpu (selRand : Fin 2) (pick : Nat) (es : EngineState) :
      EngineStep es (cpuPlaceStone selRand pick es)
  | undoStep (es : EngineState) :
      EngineStep es (undo es)
  | reset (mode : Option GameMode) (cpuColor : Option (Option Player)) (es : EngineState) :
      EngineStep es (resetGame mode cpuColor es)

/-- Reachability of an engine state from the freshly mounted hook. -/
def Reachable (es : EngineState) : Prop :=
  Relation.ReflTransGen EngineStep initialEngineState es

/-- Specification-side predicate: the probability of a stone is one of the
four values of `STONE_PROBABILITIES`. -/
def goodProb (q : ℚ) : Prop :=
  q = 9/10 ∨ q = 7/10 ∨ q = 3/10 ∨ q = 1/10

instance (q : ℚ) : Decidable (goodProb q) := by
  unfold goodProb
  infer_instance

/-- Specification-side predicate: every stone on the board carries one of the
four allowed probabilities. -/
def goodBoard (b : BoardState) : Prop :=
  ∀ row ∈ b, ∀ cell ∈ row, ∀ st : Stone, cell = some st → goodProb st.probability

instance (b : BoardState) : Decidable (goodBoard b) := by
  unfold goodBoard
  infer_instance

/-- Specification-side predicate: the current board and every history frame
carry only allowed probabilities. -/
def goodEngineState (es : EngineState) : Prop :=
  goodBoard es.game.board ∧ ∀ s ∈ es.history, goodBoard s.board

instance (es : EngineState) : Decidable (goodEngineState es) := by
  unfold goodEngineState
  infer_instance

/-- Specification-side predicate: no stone of the board has a resolved
color. -/
def allUnobserved (b : BoardState) : Prop :=
  ∀ row ∈ b, ∀ cell ∈ row, ∀ st : Stone, cell = some st → st.observedColor = none

instance (b : BoardState) : Decidable (allUnobserved b) := by
  unfold allUnobserved
  infer_instance

/-- The probability grid of a board: the shape of the board with only the
probability of each stone retained. -/
def probGrid (b : BoardState) : List (List (Option ℚ)) :=
  b.map (fun row => row.map (fun cell => cell.map Stone.probability))

/-- All guards of `observeBoard` pass: the game is live, no collapse is
running, it is the local player's turn in networked mode, a stone was placed,
no observation is showing, and the observation budget is positive. -/
def observeGuardOK (myColor : Option Player) (s : GameState) : Prop :=
  ¬(s.isGameOver = true ∨ s.isCollapsing = true)
  ∧ ¬(s.gameMode = GameMode.Online ∧ some s.currentPlayer ≠ myColor)
  ∧ ¬(¬s.isStonePlaced = true ∨ s.isObserving = true)
  ∧ ¬(currentObservationCount s ≤ 0)

/-- The observation count of the opponent of the player to move. -/
def otherObservationCount (s : GameState) : Int :=
  if s.currentPlayer = Player.Black then s.whiteObservationCount
  else s.blackObservationCount

/-- A stone resolved to color `p`, used in concrete test boards. -/
def observedStone (p : Player) : CellState :=
  some { probability := 9/10, observedColor := some p }

/-- A board whose first row and first column each hold five stones resolved
to Black, both runs crossing at the origin cell.  Rows not listed are read
as empty. -/
def crossBoard : BoardState :=
  [[observedStone Player.Black, observedStone Player.Black, observedStone Player.Black,
    observedStone Player.Black, observedStone Player.Black],
   [observedStone Player.Black],
   [observedStone Player.Black],
   [observedStone Player.Black],
   [observedStone Player.Black]]

/-- A board with a horizontal run of five resolved Black stones in row 0 and
a horizontal run of five resolved White stones in row 2: both colors complete
a line simultaneously. -/
def dualBoard : BoardState :=
  [[observedStone Player.Black, observedStone Player.Black, observedStone Player.Black,
    observedStone Player.Black, observedStone Player.Black],
   [],
   [observedStone Player.White, observedStone Player.White, observedStone Player.White,
    observedStone Player.White, observedStone Player.White]]

/-- A board with a single horizontal run of five resolved Black stones. -/
def rowBoard : BoardState :=
  [[observedStone Player.Black, observedStone Player.Black, observedStone Player.Black,
    observedStone Player.Black, observedStone Player.Black]]

/-- A small board with one unobserved stone and three empty cells, used to
exercise the heuristic opponent. -/
def cpuBoard : BoardState :=
  [[some { probability := 9/10 }, none], [none, none]]

/-- A fresh heuristic-mode state in which the computer plays Black and
therefore moves first. -/
def pveCpuFirstState : GameState :=
  { createInitialState with gameMode := GameMode.PvE, cpuColor := some Player.Black }

/-- The heuristic-mode state after the Black computer placed its first
stone: the frame the CPU phase pushes is `pveCpuFirstState` itself. -/
def pveCpuPlacedState : GameState :=
  { pveCpuFirstState with
      board := setCell pveCpuFirstState.board 7 7 (some { probability := 9/10 })
      lastBlackStoneIndex := some 0
      isStonePlaced := true }

/-- A heuristic-mode state at the start of the human turn (computer plays
White), used as a well-formed bottom history frame. -/
def pveHumanFirstState : GameState :=
  { createInitialState with gameMode := GameMode.PvE, cpuColor := some Player.White }

/-- A state in which Black has just placed the strong stone (index 0), so
the repetition rule forbids index 0 on Black's next placement. -/
def blackUsedStrongState : GameState :=
  { createInitialState with lastBlackStoneIndex := some 0, selectedStoneIndex := 1 }

/-- A state in which White is to move after Black last used the strong
stone, for exercising the default selection at turn rotation. -/
def whiteToMoveState : GameState :=
  { createInitialState with currentPlayer := Player.White, lastBlackStoneIndex := some 0 }

/-- A placed-stone state with exhausted observation budget for Black. -/
def exhaustedObservationState : GameState :=
  { createInitialState with isStonePlaced := true, blackObservationCount := 0 }

/-- The engine state of a computer-first heuristic game after the Black
computer has placed its first stone and ended its turn: the human (White) is
to move, and both recorded frames are Black-computer frames. -/
def cpuFirstEngineState : EngineState :=
  { game := { pveCpuPlacedState with
      currentPlayer := Player.White
      isStonePlaced := false },
    history := [pveCpuFirstState, pveCpuPlacedState] }

/-- The engine state of a human-first heuristic game (computer plays White)
during the White computer turn, whose oldest recorded frame is the start of
the human turn. -/
def humanFirstEngineState : EngineState :=
  { game := { pveHumanFirstState with
      currentPlayer := Player.White
      isStonePlaced := true },
    history := [pveHumanFirstState] }

/-- An engine state with one stone on the board and that placement still
pending the end of turn. -/
def placedEngineState : EngineState :=
  { game := { createInitialState with
      board := setCell createInitialState.board 7 7 (some { probability := 9/10 })
      lastBlackStoneIndex := some 0
      isStonePlaced := true },
    history := [createInitialState] }

/-! ## Helper lemmas about the observation pipeline -/

lemma observeBoard_of_guard (myColor : Option Player) (draw : Nat → Nat → ℚ)
    (es : EngineState) (h : observeGuardOK myColor es.game) :
    observeBoard myColor draw es =
      observeBoardResolve draw
        { game := { es.game with isCollapsing := true },
          history :=
            if es.game.gameMode ≠ GameMode.Online then es.history ++ [es.game]
            else es.history } := by
  obtain ⟨h1, h2, h3, h4⟩ := h
  unfold observeBoard
  dsimp only
  rw [if_neg h1, if_neg h2, if_neg h3, if_neg h4]

lemma observeBoard_noop_of_exhausted (myColor : Option Player)
    (draw : Nat → Nat → ℚ) (es : EngineState)
    (h : currentObservationCount es.game ≤ 0) :
    observeBoard myColor draw es = es := by
  unfold observeBoard
  dsimp only
  repeat' split
  all_goals rfl

lemma player_cases (p : Player) : p = Player.Black ∨ p = Player.White := by
  cases p <;> simp

lemma observeBoardResolve_counts (draw : Nat → Nat → ℚ) (es : EngineState)
    (h : es.game.isCollapsing = true) :
    currentObservationCount (observeBoardResolve draw es).game
        = currentObservationCount es.game - 1
    ∧ otherObservationCount (observeBoardResolve draw es).game
        = otherObservationCount es.game := by
  unfold observeBoardResolve
  rw [if_neg (by simp [h])]
  dsimp only
  rcases player_cases es.game.currentPlayer with hp | hp <;>
    split <;>
    simp [currentObservationCount, otherObservationCount, hp]

/-! ## Claim C2: strength-repetition rule -/

/-- Claim C2, counterexample: in a state where Black last placed strength 0
(so the rule forbids index 0), `selectStone 0` is not a no-op — the engine
records the forbidden selection unconditionally. -/
theorem claim_C2_counterexample :
    selectStone 0 blackUsedStrongState ≠ blackUsedStrongState := by
  decide

/-- Claim C2, amended: `selectStone` always records the requested strength
index (the engine applies no repetition guard), while the default selection
computed at turn rotation never picks the forbidden index: after Black used
strength 0, the rotation to Black selects 1, and after White used strength 1,
the rotation to White selects 0. -/
theorem claim_C2 (s : GameState) (index : Fin 2) :
    (selectStone index s).selectedStoneIndex = index
    ∧ (s.currentPlayer = Player.White → s.lastBlackStoneIndex = some 0 →
        (calculateNextTurnState s).selectedStoneIndex = 1)
    ∧ (s.currentPlayer = Player.Black → s.lastWhiteStoneIndex = some 1 →
        (calculateNextTurnState s).selectedStoneIndex = 0) := by
  refine ⟨rfl, ?_, ?_⟩
  · intro hp hl
    unfold calculateNextTurnState
    simp [hp, hl]
  · intro hp hl
    unfold calculateNextTurnState
    simp [hp, hl]

/-- Claim C2, witness: the amended statement evaluated in the state where
White is to move after Black used the strong stone. -/
theorem claim_C2_witness :
    whiteToMoveState.currentPlayer = Player.White
    ∧ whiteToMoveState.lastBlackStoneIndex = some 0
    ∧ (calculateNextTurnState whiteToMoveState).selectedStoneIndex = 1 :=
  ⟨by decide, by decide, (claim_C2 whiteToMoveState 0).2.1 (by decide) (by decide)⟩

/-! ## Claim C4: observation budget accounting -/

/-- Claim C4: a completed observation decrements the observing player's
budget by exactly one, never below zero, and leaves the opponent's budget
unchanged; calling `observeBoard` with an exhausted budget leaves the whole
hook state (game and history) unchanged. -/
theorem claim_C4 (myColor : Option Player) (draw : Nat → Nat → ℚ) (es : EngineState) :
    (currentObservationCount es.game ≤ 0 → observeBoard myColor draw es = es)
    ∧ (observeGuardOK myColor es.game →
        currentObservationCount (observeBoard myColor draw es).game
            = currentObservationCount es.game - 1
        ∧ 0 ≤ currentObservationCount (observeBoard myColor draw es).game
        ∧ otherObservationCount (observeBoard myColor draw es).game
            = otherObservationCount es.game) := by
  constructor
  · exact observeBoard_noop_of_exhausted myColor draw es
  · intro hG
    have hcnt : ¬(currentObservationCount es.game ≤ 0) := hG.2.2.2
    rw [observeBoard_of_guard myColor draw es hG]
    obtain ⟨hc, ho⟩ := observeBoardResolve_counts draw
      { game := { es.game with isCollapsing := true },
        history :=
          if es.game.gameMode ≠ GameMode.Online then es.history ++ [es.game]
          else es.history } (by simp)
    have hcur : currentObservationCount { es.game with isCollapsing := true }
        = currentObservationCount es.game := rfl
    have hoth : otherObservationCount { es.game with isCollapsing := true }
        = otherObservationCount es.game := rfl
    refine ⟨?_, ?_, ?_⟩
    · rw [hc]
      rfl
    · rw [hc]
      have heq : currentObservationCount
          (EngineState.mk { es.game with isCollapsing := true }
            (if es.game.gameMode ≠ GameMode.Online then es.history ++ [es.game]
             else es.history)).game = currentObservationCount es.game := rfl
      rw [heq]
      omega
    · rw [ho]
      rfl

/-- Claim C4, witness: on the exhausted-budget placed state the observation
is a strict no-op. -/
theorem claim_C4_witness :
    currentObservationCount exhaustedObservationState ≤ 0
    ∧ observeBoard none (fun _ _ => 1/2)
        { game := exhaustedObservationState, history := [] }
        = { game := exhaustedObservationState, history := [] } :=
  ⟨by decide,
   (claim_C4 none (fun _ _ => 1/2) { game := exhaustedObservationState, history := [] }).1
     (by decide)⟩

/-! ## Claim C7: invalid calls are silently ignored -/

/-- Claim C7, counterexample: calling `endTurn` on the initial state — before
any stone has been placed this turn — is not ignored: it rotates the turn and
records a history frame, so the state changes. -/
theorem claim_C7_counterexample :
    endTurn none initialEngineState ≠ initialEngineState
    ∧ initialEngineState.game.isStonePlaced = false := by
  constructor
  · decide
  · decide

/-- Claim C7, amended: placing on an occupied cell, placing twice in a turn,
placing or observing after the game is over or during a collapse, acting on a
foreign networked turn, and observing with an exhausted budget are all
silently ignored with the state unchanged; `endTurn`, however, carries only
the networked turn-ownership guard, so ending the turn in an invalid phase is
not ignored (see the counterexample). -/
theorem claim_C7 (myColor : Option Player) (draw : Nat → Nat → ℚ)
    (row col : Nat) (es : EngineState) :
    ((cellAtNat es.game.board row col).isSome = true →
        placeStone myColor row col es = es)
    ∧ (es.game.isStonePlaced = true → placeStone myColor row col es = es)
    ∧ (es.game.isGameOver = true →
        placeStone myColor row col es = es ∧ observeBoard myColor draw es = es)
    ∧ (es.game.isCollapsing = true →
        placeStone myColor row col es = es ∧ observeBoard myColor draw es = es)
    ∧ (es.game.gameMode = GameMode.Online → some es.game.currentPlayer ≠ myColor →
        placeStone myColor row col es = es ∧ endTurn myColor es = es
          ∧ observeBoard myColor draw es = es)
    ∧ (currentObservationCount es.game ≤ 0 → observeBoard myColor draw es = es) := by
  refine ⟨?_, ?_, ?_, ?_, ?_, ?_⟩
  · intro h
    unfold placeStone
    dsimp only
    split
    · rfl
    rw [if_pos (by simp [h])]
  · intro h
    unfold placeStone
    dsimp only
    split
    · rfl
    rw [if_pos (by simp [h])]
  · intro h
    refine ⟨?_, ?_⟩
    · unfold placeStone
      dsimp only
      split
      · rfl
      rw [if_pos (by simp [h])]
    · unfold observeBoard
      dsimp only
      rw [if_pos (by simp [h])]
  · intro h
    refine ⟨?_, ?_⟩
    · unfold placeStone
      dsimp only
      split
      · rfl
      rw [if_pos (by simp [h])]
    · unfold observeBoard
      dsimp only
      rw [if_pos (by simp [h])]
  · intro hm ht
    refine ⟨?_, ?_, ?_⟩
    · unfold placeStone
      dsimp only
      rw [if_pos ⟨hm, ht⟩]
    · unfold endTurn
      dsimp only
      rw [if_pos ⟨hm, ht⟩]
    · unfold observeBoard
      dsimp only
      split
      · rfl
      rw [if_pos ⟨hm, ht⟩]
  · exact observeBoard_noop_of_exhausted myColor draw es

/-- Claim C7, witness: on the engine state with a stone at (7, 7), placing
again at the occupied cell leaves the state unchanged. -/
theorem claim_C7_witness :
    (cellAtNat placedEngineState.game.board 7 7).isSome = true
    ∧ placeStone none 7 7 placedEngineState = placedEngineState :=
  ⟨by decide, (claim_C7 none (fun _ _ => 1/2) 7 7 placedEngineState).1 (by decide)⟩

/-! ## Helper lemmas about collapse and revert -/

lemma clearObserved_collapseCell (draw : Nat → Nat → ℚ) (r c : Nat) (cell : CellState) :
    clearObserved (collapseCell draw r c cell) = clearObserved cell := by
  cases cell <;> rfl

lemma map_clearObserved_collapseCells (draw : Nat → Nat → ℚ) (r : Nat) :
    ∀ (c : Nat) (row : List CellState),
      (collapseCells draw r c row).map clearObserved = row.map clearObserved := by
  intro c row
  induction row generalizing c with
  | nil => rfl
  | cons cell rest ih =>
    simp [collapseCells, clearObserved_collapseCell, ih]

lemma revertBoard_collapseRowsFrom (draw : Nat → Nat → ℚ) :
    ∀ (r : Nat) (rows : List (List CellState)),
      revertBoard (collapseRowsFrom draw r rows) = revertBoard rows := by
  intro r rows
  induction rows generalizing r with
  | nil => rfl
  | cons row rest ih =>
    simp [collapseRowsFrom, revertBoard] at *
    exact ⟨map_clearObserved_collapseCells draw r 0 row, ih (r + 1)⟩

lemma revertBoard_collapseBoard (draw : Nat → Nat → ℚ) (b : BoardState) :
    revertBoard (collapseBoard draw b) = revertBoard b :=
  revertBoard_collapseRowsFrom draw 0 b

lemma clearObserved_eq_self (cell : CellState)
    (h : ∀ st : Stone, cell = some st → st.observedColor = none) :
    clearObserved cell = cell := by
  cases cell with
  | none => rfl
  | some st =>
    have hst := h st rfl
    cases st
    simp [clearObserved] at *
    exact hst.symm

lemma revertBoard_eq_self (b : BoardState) (h : allUnobserved b) :
    revertBoard b = b := by
  unfold revertBoard
  unfold allUnobserved at h
  induction b with
  | nil => rfl
  | cons row rest ih =>
    simp only [List.map_cons, List.cons.injEq]
    constructor
    · have hrow : ∀ cell ∈ row, clearObserved cell = cell := by
        intro cell hc
        exact clearObserved_eq_self cell (h row (by simp) cell hc)
      calc row.map clearObserved = row.map id := List.map_congr_left hrow
        _ = row := List.map_id row
    · exact ih (fun rw hrw cell hc => h rw (by simp [hrw]) cell hc)

lemma allUnobserved_revertBoard (b : BoardState) : allUnobserved (revertBoard b) := by
  unfold allUnobserved revertBoard
  intro row hrow cell hcell st hst
  obtain ⟨row0, _, rfl⟩ := List.mem_map.mp hrow
  obtain ⟨cell0, _, rfl⟩ := List.mem_map.mp hcell
  cases cell0 with
  | none => simp [clearObserved] at hst
  | some st0 =>
    simp [clearObserved] at hst
    rw [← hst]

lemma probGrid_collapseCells (draw : Nat → Nat → ℚ) (r : Nat) :
    ∀ (c : Nat) (row : List CellState),
      (collapseCells draw r c row).map (fun cell => cell.map Stone.probability)
        = row.map (fun cell => cell.map Stone.probability) := by
  intro c row
  induction row generalizing c with
  | nil => rfl
  | cons cell rest ih =>
    have hcell : (collapseCell draw r c cell).map Stone.probability
        = cell.map Stone.probability := by
      cases cell <;> rfl
    simp [collapseCells, hcell, ih]

lemma probGrid_collapseBoard (draw : Nat → Nat → ℚ) (b : BoardState) :
    probGrid (collapseBoard draw b) = probGrid b := by
  unfold probGrid collapseBoard
  generalize hr : 0 = r
  clear hr
  induction b generalizing r with
  | nil => rfl
  | cons row rest ih =>
    simp [collapseRowsFrom, probGrid_collapseCells, ih]

lemma probGrid_revertBoard (b : BoardState) : probGrid (revertBoard b) = probGrid b := by
  unfold probGrid revertBoard
  induction b with
  | nil => rfl
  | cons row rest ih =>
    have hrow : (row.map clearObserved).map (fun cell => cell.map Stone.probability)
        = row.map (fun cell => cell.map Stone.probability) := by
      induction row with
      | nil => rfl
      | cons cell rcs ihr =>
        have : (clearObserved cell).map Stone.probability
            = cell.map Stone.probability := by
          cases cell <;> rfl
        simp [this, ihr]
    simp [hrow, ih]

lemma observeBoard_board (myColor : Option Player) (draw : Nat → Nat → ℚ)
    (es : EngineState) :
    (observeBoard myColor draw es).game.board = es.game.board
    ∨ (observeBoard myColor draw es).game.board = collapseBoard draw es.game.board := by
  unfold observeBoard observeBoardResolve
  dsimp only
  repeat' split
  all_goals simp

/-! ## Claim C5: no-winner collapse/revert round trip -/

/-- Claim C5: when an observation ends with the no-winner message showing,
the completed reversion leaves every stone unresolved, preserves every
stone's probability, and — whenever the pre-observation board was fully
unresolved, as the engine guarantees at observation time — restores the board
to its exact pre-observation value. -/
theorem claim_C5 (myColor : Option Player) (draw : Nat → Nat → ℚ) (es : EngineState)
    (h2 : (observeBoard myColor draw es).game.showNoWinnerMessage = true) :
    allUnobserved (noWinnerRevertEffect (observeBoard myColor draw es)).game.board
    ∧ probGrid (noWinnerRevertEffect (observeBoard myColor draw es)).game.board
        = probGrid es.game.board
    ∧ (allUnobserved es.game.board →
        (noWinnerRevertEffect (observeBoard myColor draw es)).game.board
          = es.game.board) := by
  have hfire : (noWinnerRevertEffect (observeBoard myColor draw es)).game.board
      = revertBoard (observeBoard myColor draw es).game.board := by
    unfold noWinnerRevertEffect
    dsimp only
    rw [if_neg (by simp [h2])]
  rw [hfire]
  rcases observeBoard_board myColor draw es with hb | hb <;> rw [hb]
  · exact ⟨allUnobserved_revertBoard _, probGrid_revertBoard _,
      fun hu => revertBoard_eq_self _ hu⟩
  · refine ⟨allUnobserved_revertBoard _, ?_, ?_⟩
    · rw [probGrid_revertBoard, probGrid_collapseBoard]
    · intro hu
      rw [revertBoard_collapseBoard, revertBoard_eq_self _ hu]

/-- Claim C5, witness: a concrete observation of the single-stone placed
state ends with no winner, and the reverted board is the original board. -/
theorem claim_C5_witness :
    (observeBoard none (fun _ _ => 0) placedEngineState).game.showNoWinnerMessage = true
    ∧ (allUnobserved
          (noWinnerRevertEffect (observeBoard none (fun _ _ => 0) placedEngineState)).game.board
       ∧ probGrid
          (noWinnerRevertEffect (observeBoard none (fun _ _ => 0) placedEngineState)).game.board
            = probGrid placedEngineState.game.board
       ∧ (allUnobserved placedEngineState.game.board →
          (noWinnerRevertEffect (observeBoard none (fun _ _ => 0) placedEngineState)).game.board
            = placedEngineState.game.board)) :=
  ⟨by decide, claim_C5 none (fun _ _ => 0) placedEngineState (by decide)⟩

/-! ## Claim C6: undo in heuristic mode -/

/-- Claim C6, counterexample: in a computer-first heuristic game (Black is
the computer), undoing from the start of the human turn rewinds to the oldest
frame, which is the computer's turn start — `currentPlayer` equals the
heuristic color, not the human color, contradicting the claim. -/
theorem claim_C6_counterexample :
    cpuFirstEngineState.game.gameMode = GameMode.PvE
    ∧ cpuFirstEngineState.game.cpuColor = some Player.Black
    ∧ cpuFirstEngineState.history ≠ []
    ∧ (undo cpuFirstEngineState).game.currentPlayer = Player.Black := by
  refine ⟨by decide, by decide, by decide, by decide⟩

lemma undoWhileFuel_spec (cpu : Player) :
    ∀ (fuel : Nat) (st : GameState) (h : List GameState), h.length ≤ fuel →
      (¬((undoWhileFuel cpu fuel st h).1.currentPlayer = cpu
          ∨ (undoWhileFuel cpu fuel st h).1.isStonePlaced = true))
      ∨ (undoWhileFuel cpu fuel st h).2 = [] := by
  intro fuel
  induction fuel with
  | zero =>
    intro st h hlen
    have : h = [] := List.length_eq_zero.mp (Nat.le_zero.mp hlen)
    subst this
    right
    rfl
  | succ fuel ih =>
    intro st h hlen
    rcases List.eq_nil_or_concat h with rfl | ⟨L, b, rfl⟩
    · right
      rfl
    · simp only [List.concat_eq_append] at hlen ⊢
      rw [List.length_append] at hlen
      simp only [List.length_cons, List.length_nil] at hlen
      have hL : L.length ≤ fuel := by omega
      show _ ∨ _
      by_cases hbad : st.currentPlayer = cpu ∨ st.isStonePlaced = true
      · have hred : undoWhileFuel cpu (fuel + 1) st (L ++ [b])
            = undoWhileFuel cpu fuel b L := by
          unfold undoWhileFuel
          rw [List.getLast?_concat, List.dropLast_concat]
          simp only [hbad, if_pos]
          split
          · rfl
          · rfl
        rw [hred]
        exact ih b L hL
      · have hred : undoWhileFuel cpu (fuel + 1) st (L ++ [b]) = (st, L ++ [b]) := by
          unfold undoWhileFuel
          rw [List.getLast?_concat]
          simp [hbad]
        rw [hred]
        left
        exact hbad

/-- Claim C6, amended: in heuristic mode with a non-empty history, `undo`
restores a state that is the human color's turn with no stone placed, except
when the rewind exhausts the history (as happens when the heuristic color
moves first and the oldest frame is a computer-turn frame), in which case the
oldest frame is restored whatever it is. -/
theorem claim_C6 (es : EngineState) (cpu : Player)
    (hm : es.game.gameMode = GameMode.PvE)
    (hc : es.game.cpuColor = some cpu)
    (hh : es.history ≠ []) :
    ((undo es).game.currentPlayer ≠ cpu ∧ (undo es).game.isStonePlaced = false)
    ∨ (undo es).history = [] := by
  rcases List.eq_nil_or_concat es.history with hnil | ⟨L, b, hsnoc⟩
  · exact absurd hnil hh
  · rw [List.concat_eq_append] at hsnoc
    have hred : undo es = (fun res => ({ game := res.1, history := res.2 } : EngineState))
        (undoWhile cpu b L) := by
      unfold undo performUndo
      rw [if_neg (by simp [hm])]
      rw [hsnoc, List.getLast?_concat, List.dropLast_concat]
      dsimp only
      rw [hm, hc]
    rcases undoWhileFuel_spec cpu L.length b L (le_refl _) with hgood | hempty
    · left
      rw [hred]
      unfold undoWhile
      push_neg at hgood
      refine ⟨hgood.1, ?_⟩
      simpa using hgood.2
    · right
      rw [hred]
      unfold undoWhile
      exact hempty

/-- Claim C6, witness: in a human-first heuristic game the amended statement
holds for the concrete one-frame history, and there it restores the start of
the human turn. -/
theorem claim_C6_witness :
    humanFirstEngineState.game.gameMode = GameMode.PvE
    ∧ humanFirstEngineState.game.cpuColor = some Player.White
    ∧ humanFirstEngineState.history ≠ []
    ∧ (((undo humanFirstEngineState).game.currentPlayer ≠ Player.White
        ∧ (undo humanFirstEngineState).game.isStonePlaced = false)
       ∨ (undo humanFirstEngineState).history = []) :=
  ⟨by decide, by decide, by decide,
   claim_C6 humanFirstEngineState Player.White (by decide) (by decide) (by decide)⟩

/-! ## Helper lemmas about the win-detector scan -/

lemma foldl_flag_mono {α : Type} (g : ScanState → Bool) (f : ScanState → α → ScanState)
    (hmono : ∀ s x, g s = true → g (f s x) = true) :
    ∀ (l : List α) (st : ScanState), g st = true → g (l.foldl f st) = true := by
  intro l
  induction l with
  | nil => intro st h; exact h
  | cons x xs ih => intro st h; exact ih (f st x) (hmono st x h)

lemma foldl_flag_of_mem {α : Type} [DecidableEq α] (g : ScanState → Bool)
    (f : ScanState → α → ScanState)
    (hmono : ∀ s x, g s = true → g (f s x) = true)
    (x : α) (hx : ∀ s, g (f s x) = true) :
    ∀ (l : List α) (st : ScanState), x ∈ l → g (l.foldl f st) = true := by
  intro l
  induction l with
  | nil => intro st h; simp at h
  | cons y ys ih =>
    intro st h
    rcases List.mem_cons.mp h with rfl | hmem
    · exact foldl_flag_mono g f hmono ys (f st x) (hx st)
    · exact ih (f st y) hmem

lemma foldl_flag_sound {α : Type} (g : ScanState → Bool) (f : ScanState → α → ScanState)
    (C : α → Prop) (hstep : ∀ s x, g (f s x) = true → g s = true ∨ C x) :
    ∀ (l : List α) (st : ScanState), g (l.foldl f st) = true →
      g st = true ∨ ∃ x ∈ l, C x := by
  intro l
  induction l with
  | nil => intro st h; exact Or.inl h
  | cons x xs ih =>
    intro st h
    rcases ih (f st x) h with h2 | ⟨y, hy, hC⟩
    · rcases hstep st x h2 with h3 | hC
      · exact Or.inl h3
      · exact Or.inr ⟨x, by simp, hC⟩
    · exact Or.inr ⟨y, by simp [hy], hC⟩

lemma foldl_preserve {α : Type} (P : ScanState → Prop) (f : ScanState → α → ScanState)
    (hf : ∀ s x, P s → P (f s x)) :
    ∀ (l : List α) (st : ScanState), P st → P (l.foldl f st) := by
  intro l
  induction l with
  | nil => intro st h; exact h
  | cons x xs ih => intro st h; exact ih (f st x) (hf st x h)

lemma winFlag_pushLine (q p : Player) (st : ScanState) (line : List (Int × Int)) :
    winFlag q (pushLine st p line) = true ↔ (q = p ∨ winFlag q st = true) := by
  cases p <;> cases q <;> simp [pushLine, winFlag]

lemma processDir_mono (board : BoardState) (p q : Player) (r c : Int)
    (st : ScanState) (d : Int × Int) (h : winFlag q st = true) :
    winFlag q (processDir board p r c st d) = true := by
  unfold processDir
  split
  · exact (winFlag_pushLine q p st _).mpr (Or.inr h)
  · exact h

lemma processDir_sets (board : BoardState) (p : Player) (r c : Int)
    (st : ScanState) (d : Int × Int) (h : 5 ≤ countDir board p r c d) :
    winFlag p (processDir board p r c st d) = true := by
  unfold processDir
  rw [if_pos h]
  exact (winFlag_pushLine p p st _).mpr (Or.inl rfl)

lemma processDir_sound (board : BoardState) (p q : Player) (r c : Int)
    (st : ScanState) (d : Int × Int)
    (h : winFlag q (processDir board p r c st d) = true) :
    winFlag q st = true ∨ (q = p ∧ 5 ≤ countDir board p r c d) := by
  unfold processDir at h
  by_cases hc : 5 ≤ countDir board p r c d
  · rw [if_pos hc] at h
    rcases (winFlag_pushLine q p st _).mp h with rfl | h2
    · exact Or.inr ⟨rfl, hc⟩
    · exact Or.inl h2
  · rw [if_neg hc] at h
    exact Or.inl h

lemma processCell_mono (board : BoardState) (q : Player) (st : ScanState) (r c : Int)
    (h : winFlag q st = true) : winFlag q (processCell board st r c) = true := by
  unfold processCell
  split
  · exact h
  · split
    · exact h
    · exact foldl_flag_mono (winFlag q) _
        (fun s d hs => processDir_mono board _ q r c s d hs) directions st h

lemma processCell_sets (board : BoardState) (p : Player) (st : ScanState) (r c : Int)
    (d : Int × Int) (hobs : obsAt board r c = some p) (hd : d ∈ directions)
    (hcount : 5 ≤ countDir board p r c d) :
    winFlag p (processCell board st r c) = true := by
  unfold processCell
  rw [hobs]
  dsimp only
  split
  · assumption
  · exact foldl_flag_of_mem (winFlag p) _
      (fun s x hs => processDir_mono board p p r c s x hs) d
      (fun s => processDir_sets board p r c s d hcount) directions st hd

lemma processCell_sound (board : BoardState) (q : Player) (st : ScanState) (r c : Int)
    (h : winFlag q (processCell board st r c) = true) :
    winFlag q st = true
    ∨ (obsAt board r c = some q ∧ ∃ d ∈ directions, 5 ≤ countDir board q r c d) := by
  unfold processCell at h
  rcases hobs : obsAt board r c with _ | p
  · rw [hobs] at h
    exact Or.inl h
  · rw [hobs] at h
    dsimp only at h
    by_cases hflag : winFlag p st = true
    · rw [if_pos hflag] at h
      exact Or.inl h
    · rw [if_neg hflag] at h
      rcases foldl_flag_sound (winFlag q) _
          (fun d => q = p ∧ 5 ≤ countDir board p r c d)
          (fun s d hs => processDir_sound board p q r c s d hs) directions st h with
        h2 | ⟨d, hd, hqp, hcount⟩
      · exact Or.inl h2
      · subst hqp
        exact Or.inr ⟨rfl, d, hd, hcount⟩

lemma processRow_mono (board : BoardState) (q : Player) (st : ScanState) (r : Int)
    (h : winFlag q st = true) : winFlag q (processRow board st r) = true := by
  unfold processRow
  exact foldl_flag_mono (winFlag q)
    (fun s (cNat : Nat) => processCell board s r (cNat : Int))
    (fun s cNat hs => processCell_mono board q s r (cNat : Int) hs) _ st h

lemma processRow_sets (board : BoardState) (p : Player) (st : ScanState) (r : Int)
    (c : Nat) (d : Int × Int) (hc : c < BOARD_SIZE)
    (hobs : obsAt board r (c : Int) = some p) (hd : d ∈ directions)
    (hcount : 5 ≤ countDir board p r (c : Int) d) :
    winFlag p (processRow board st r) = true := by
  unfold processRow
  exact foldl_flag_of_mem (winFlag p)
    (fun s (cNat : Nat) => processCell board s r (cNat : Int))
    (fun s cNat hs => processCell_mono board p s r (cNat : Int) hs) c
    (fun s => processCell_sets board p s r (c : Int) d hobs hd hcount) _ st
    (List.mem_range.mpr hc)

lemma processRow_sound (board : BoardState) (q : Player) (st : ScanState) (r : Int)
    (h : winFlag q (processRow board st r) = true) :
    winFlag q st = true
    ∨ ∃ c : Nat, c < BOARD_SIZE ∧ obsAt board r (c : Int) = some q
        ∧ ∃ d ∈ directions, 5 ≤ countDir board q r (c : Int) d := by
  unfold processRow at h
  rcases foldl_flag_sound (winFlag q)
      (fun s (cNat : Nat) => processCell board s r (cNat : Int))
      (fun (cNat : Nat) => obsAt board r (cNat : Int) = some q
        ∧ ∃ d ∈ directions, 5 ≤ countDir board q r (cNat : Int) d)
      (fun s cNat hs => processCell_sound board q s r (cNat : Int) hs) _ st h with
    h2 | ⟨c, hc, hobs, hrest⟩
  · exact Or.inl h2
  · exact Or.inr ⟨c, List.mem_range.mp hc, hobs, hrest⟩

lemma bothWins_winFlag (st : ScanState) (q : Player)
    (hb : st.blackWins = true) (hw : st.whiteWins = true) : winFlag q st = true := by
  cases q
  · exact hb
  · exact hw

lemma scanRows_mono (board : BoardState) (q : Player) :
    ∀ (rows : List Nat) (st : ScanState), winFlag q st = true →
      winFlag q (scanRows board rows st) = true := by
  intro rows
  induction rows with
  | nil => intro st h; exact h
  | cons r rs ih =>
    intro st h
    unfold scanRows
    dsimp only
    split
    · exact processRow_mono board q st (r : Int) h
    · exact ih _ (processRow_mono board q st (r : Int) h)

lemma scanRows_sets (board : BoardState) (p : Player) (r c : Nat) (d : Int × Int)
    (hc : c < BOARD_SIZE)
    (hobs : obsAt board (r : Int) (c : Int) = some p) (hd : d ∈ directions)
    (hcount : 5 ≤ countDir board p (r : Int) (c : Int) d) :
    ∀ (rows : List Nat) (st : ScanState), r ∈ rows →
      winFlag p (scanRows board rows st) = true := by
  intro rows
  induction rows with
  | nil => intro st h; simp at h
  | cons r0 rs ih =>
    intro st hmem
    unfold scanRows
    dsimp only
    rcases List.mem_cons.mp hmem with rfl | hmem2
    · have hrow : winFlag p (processRow board st (r : Int)) = true :=
        processRow_sets board p st (r : Int) c d hc hobs hd hcount
      split
      · exact hrow
      · exact scanRows_mono board p rs _ hrow
    · split
      · rename_i hboth
        exact bothWins_winFlag _ p (by simp_all) (by simp_all)
      · exact ih _ hmem2

lemma scanRows_sound (board : BoardState) (q : Player) :
    ∀ (rows : List Nat) (st : ScanState),
      winFlag q (scanRows board rows st) = true →
      winFlag q st = true
      ∨ ∃ r ∈ rows, ∃ c : Nat, c < BOARD_SIZE
          ∧ obsAt board (r : Int) (c : Int) = some q
          ∧ ∃ d ∈ directions, 5 ≤ countDir board q (r : Int) (c : Int) d := by
  intro rows
  induction rows with
  | nil => intro st h; exact Or.inl h
  | cons r0 rs ih =>
    intro st h
    unfold scanRows at h
    dsimp only at h
    by_cases hboth : ((processRow board st (r0 : Int)).blackWins
        && (processRow board st (r0 : Int)).whiteWins) = true
    · rw [if_pos hboth] at h
      rcases processRow_sound board q st (r0 : Int) h with h2 | ⟨c, hc, hobs, hrest⟩
      · exact Or.inl h2
      · exact Or.inr ⟨r0, by simp, c, hc, hobs, hrest⟩
    · rw [if_neg hboth] at h
      rcases ih _ h with h2 | ⟨r, hr, hrest⟩
      · rcases processRow_sound board q st (r0 : Int) h2 with h3 | ⟨c, hc, hobs, hrest⟩
        · exact Or.inl h3
        · exact Or.inr ⟨r0, by simp, c, hc, hobs, hrest⟩
      · exact Or.inr ⟨r, by simp [hr], hrest⟩

lemma countConsec_succ (board : BoardState) (p : Player) (r c : Int) (d : Int × Int)
    (fuel : Nat) (i : Int) :
    countConsec board p r c d (fuel + 1) i =
      if obsAt board (r + d.1 * i) (c + d.2 * i) = some p then
        1 + countConsec board p r c d fuel (i + 1)
      else 0 := rfl

lemma countConsec_zero (board : BoardState) (p : Player) (r c : Int) (d : Int × Int)
    (i : Int) : countConsec board p r c d 0 i = 0 := rfl

lemma countDir_ge5_iff (board : BoardState) (p : Player) (r c : Int) (d : Int × Int) :
    5 ≤ countDir board p r c d ↔
      (obsAt board (r + d.1 * 1) (c + d.2 * 1) = some p
       ∧ obsAt board (r + d.1 * 2) (c + d.2 * 2) = some p
       ∧ obsAt board (r + d.1 * 3) (c + d.2 * 3) = some p
       ∧ obsAt board (r + d.1 * 4) (c + d.2 * 4) = some p) := by
  unfold countDir
  rw [show (4 : Nat) = 3 + 1 from rfl, countConsec_succ]
  rw [show (3 : Nat) = 2 + 1 from rfl, countConsec_succ]
  rw [show (2 : Nat) = 1 + 1 from rfl, countConsec_succ]
  rw [show (1 : Nat) = 0 + 1 from rfl, countConsec_succ]
  rw [countConsec_zero]
  norm_num
  split_ifs <;> simp_all

lemma hasRunAt_iff (board : BoardState) (p : Player) (r c : Nat) (d : Int × Int) :
    hasRunAt board p r c d = true ↔
      (obsAt board (r : Int) (c : Int) = some p
       ∧ 5 ≤ countDir board p (r : Int) (c : Int) d) := by
  rw [countDir_ge5_iff]
  unfold hasRunAt
  have h5 : List.range 5 = [0, 1, 2, 3, 4] := rfl
  rw [h5]
  simp only [List.all_cons, List.all_nil, Bool.and_eq_true, decide_eq_true_eq,
    Bool.and_true]
  norm_num

lemma existsRun_iff (board : BoardState) (p : Player) :
    existsRun board p = true ↔
      ∃ r : Nat, r < BOARD_SIZE ∧ ∃ c : Nat, c < BOARD_SIZE
        ∧ ∃ d ∈ directions, obsAt board (r : Int) (c : Int) = some p
            ∧ 5 ≤ countDir board p (r : Int) (c : Int) d := by
  unfold existsRun
  simp only [List.any_eq_true, List.mem_range]
  constructor
  · rintro ⟨r, hr, c, hc, d, hd, hrun⟩
    obtain ⟨hobs, hcount⟩ := (hasRunAt_iff board p r c d).mp hrun
    exact ⟨r, hr, c, hc, d, hd, hobs, hcount⟩
  · rintro ⟨r, hr, c, hc, d, hd, hobs, hcount⟩
    exact ⟨r, hr, c, hc, d, hd, (hasRunAt_iff board p r c d).mpr ⟨hobs, hcount⟩⟩

lemma checkWinScan_flag_iff (board : BoardState) (p : Player) :
    winFlag p (checkWinScan board) = true ↔ existsRun board p = true := by
  constructor
  · intro h
    rcases scanRows_sound board p (List.range BOARD_SIZE) initScan h with h2 | hfound
    · cases p <;> simp [winFlag, initScan] at h2
    · obtain ⟨r, hr, c, hc, hobs, d, hd, hcount⟩ := hfound
      exact (existsRun_iff board p).mpr
        ⟨r, List.mem_range.mp hr, c, hc, d, hd, hobs, hcount⟩
  · intro h
    obtain ⟨r, hr, c, hc, d, hd, hobs, hcount⟩ := (existsRun_iff board p).mp h
    exact scanRows_sets board p r c d hc hobs hd hcount (List.range BOARD_SIZE)
      initScan (List.mem_range.mpr hr)

lemma lineWindow_length (r c : Int) (d : Int × Int) : (lineWindow r c d).length = 5 := by
  unfold lineWindow
  rw [List.length_map, List.length_range]

lemma pushLine_linesInv (st : ScanState) (p : Player) (r c : Int) (d : Int × Int)
    (h : 5 ∣ st.blackLines.length ∧ 5 ∣ st.whiteLines.length
      ∧ (st.blackWins = true → st.blackLines ≠ [])
      ∧ (st.whiteWins = true → st.whiteLines ≠ [])) :
    5 ∣ (pushLine st p (lineWindow r c d)).blackLines.length
    ∧ 5 ∣ (pushLine st p (lineWindow r c d)).whiteLines.length
    ∧ ((pushLine st p (lineWindow r c d)).blackWins = true →
        (pushLine st p (lineWindow r c d)).blackLines ≠ [])
    ∧ ((pushLine st p (lineWindow r c d)).whiteWins = true →
        (pushLine st p (lineWindow r c d)).whiteLines ≠ []) := by
  obtain ⟨hb, hw, hbn, hwn⟩ := h
  cases p
  · refine ⟨?_, ?_, ?_, ?_⟩
    · show 5 ∣ (st.blackLines ++ lineWindow r c d).length
      rw [List.length_append, lineWindow_length]
      exact Nat.dvd_add hb (dvd_refl 5)
    · exact hw
    · intro _
      show st.blackLines ++ lineWindow r c d ≠ []
      apply List.ne_nil_of_length_pos
      rw [List.length_append, lineWindow_length]
      omega
    · exact hwn
  · refine ⟨?_, ?_, ?_, ?_⟩
    · exact hb
    · show 5 ∣ (st.whiteLines ++ lineWindow r c d).length
      rw [List.length_append, lineWindow_length]
      exact Nat.dvd_add hw (dvd_refl 5)
    · exact hbn
    · intro _
      show st.whiteLines ++ lineWindow r c d ≠ []
      apply List.ne_nil_of_length_pos
      rw [List.length_append, lineWindow_length]
      omega

lemma processDir_linesInv (board : BoardState) (p : Player) (r c : Int)
    (st : ScanState) (d : Int × Int)
    (h : 5 ∣ st.blackLines.length ∧ 5 ∣ st.whiteLines.length
      ∧ (st.blackWins = true → st.blackLines ≠ [])
      ∧ (st.whiteWins = true → st.whiteLines ≠ [])) :
    5 ∣ (processDir board p r c st d).blackLines.length
    ∧ 5 ∣ (processDir board p r c st d).whiteLines.length
    ∧ ((processDir board p r c st d).blackWins = true →
        (processDir board p r c st d).blackLines ≠ [])
    ∧ ((processDir board p r c st d).whiteWins = true →
        (processDir board p r c st d).whiteLines ≠ []) := by
  unfold processDir
  split
  · exact pushLine_linesInv st p r c d h
  · exact h

lemma processCell_linesInv (board : BoardState) (st : ScanState) (r c : Int)
    (h : 5 ∣ st.blackLines.length ∧ 5 ∣ st.whiteLines.length
      ∧ (st.blackWins = true → st.blackLines ≠ [])
      ∧ (st.whiteWins = true → st.whiteLines ≠ [])) :
    5 ∣ (processCell board st r c).blackLines.length
    ∧ 5 ∣ (processCell board st r c).whiteLines.length
    ∧ ((processCell board st r c).blackWins = true →
        (processCell board st r c).blackLines ≠ [])
    ∧ ((processCell board st r c).whiteWins = true →
        (processCell board st r c).whiteLines ≠ []) := by
  unfold processCell
  split
  · exact h
  · split
    · exact h
    · exact foldl_preserve
        (fun s => 5 ∣ s.blackLines.length ∧ 5 ∣ s.whiteLines.length
          ∧ (s.blackWins = true → s.blackLines ≠ [])
          ∧ (s.whiteWins = true → s.whiteLines ≠ []))
        _ (fun s d2 hs => processDir_linesInv board _ r c s d2 hs) directions st h

lemma scanRows_linesInv (board : BoardState) :
    ∀ (rows : List Nat) (st : ScanState),
      (5 ∣ st.blackLines.length ∧ 5 ∣ st.whiteLines.length
        ∧ (st.blackWins = true → st.blackLines ≠ [])
        ∧ (st.whiteWins = true → st.whiteLines ≠ [])) →
      5 ∣ (scanRows board rows st).blackLines.length
      ∧ 5 ∣ (scanRows board rows st).whiteLines.length
      ∧ ((scanRows board rows st).blackWins = true →
          (scanRows board rows st).blackLines ≠ [])
      ∧ ((scanRows board rows st).whiteWins = true →
          (scanRows board rows st).whiteLines ≠ []) := by
  intro rows
  induction rows with
  | nil => intro st h; exact h
  | cons r0 rs ih =>
    intro st h
    have hrow := foldl_preserve
      (fun s => 5 ∣ s.blackLines.length ∧ 5 ∣ s.whiteLines.length
        ∧ (s.blackWins = true → s.blackLines ≠ [])
        ∧ (s.whiteWins = true → s.whiteLines ≠ []))
      (fun s (cNat : Nat) => processCell board s (r0 : Int) (cNat : Int))
      (fun s cNat hs => processCell_linesInv board s (r0 : Int) (cNat : Int) hs)
      (List.range BOARD_SIZE) st h
    unfold scanRows
    dsimp only
    split
    · exact hrow
    · exact ih _ hrow

lemma checkWin_winner_flag (board : BoardState) (obs : Option Player) (p : Player)
    (h : (checkWin board obs).1 = some p) :
    winFlag p (checkWinScan board) = true := by
  unfold checkWin at h
  dsimp only at h
  rcases hB : (checkWinScan board).blackWins <;> rcases hW : (checkWinScan board).whiteWins
  · rw [hB, hW] at h
    simp at h
  · rw [hB, hW] at h
    simp at h
    rw [← h]
    exact hW
  · rw [hB, hW] at h
    simp at h
    rw [← h]
    exact hB
  · exact bothWins_winFlag _ p hB hW

lemma checkWin_line_black (board : BoardState) (obs : Option Player)
    (h : (checkWin board obs).1 = some Player.Black) :
    (checkWin board obs).2 = some (checkWinScan board).blackLines := by
  unfold checkWin at h ⊢
  dsimp only at h ⊢
  rw [h]

lemma checkWin_line_white (board : BoardState) (obs : Option Player)
    (h : (checkWin board obs).1 = some Player.White) :
    (checkWin board obs).2 = some (checkWinScan board).whiteLines := by
  unfold checkWin at h ⊢
  dsimp only at h ⊢
  rw [h]

/-! ## Claim C1: simultaneous dual completion goes to the observer -/

/-- Claim C1: whenever both colors have a completed run of at least five
resolved stones on the board, `checkWin` with a tiebreak observer returns
that observer as the winner, regardless of scan order. -/
theorem claim_C1 (board : BoardState) (observer : Player)
    (hb : existsRun board Player.Black = true)
    (hw : existsRun board Player.White = true) :
    (checkWin board (some observer)).1 = some observer := by
  have hbf := (checkWinScan_flag_iff board Player.Black).mpr hb
  have hwf := (checkWinScan_flag_iff board Player.White).mpr hw
  unfold checkWin
  dsimp only
  rw [if_pos]
  rw [Bool.and_eq_true]
  exact ⟨hbf, hwf⟩

/-- Claim C1, witness: on the board where Black completes row 0 and White
completes row 2, the observer White wins even though Black's line is found
first in scan order. -/
theorem claim_C1_witness :
    existsRun dualBoard Player.Black = true
    ∧ existsRun dualBoard Player.White = true
    ∧ (checkWin dualBoard (some Player.White)).1 = some Player.White :=
  ⟨by decide, by decide, claim_C1 dualBoard Player.White (by decide) (by decide)⟩

/-! ## Claim C3: a winner requires a run of five resolved stones -/

/-- Claim C3: `checkWin` reports a winner only when some color has an
axis-aligned run of at least five resolved stones (unresolved stones never
contribute), and when neither color has such a run — in particular when the
longest run has length exactly four — the winner is `none`. -/
theorem claim_C3 (board : BoardState) (observer : Option Player) :
    ((checkWin board observer).1 ≠ none →
      existsRun board Player.Black = true ∨ existsRun board Player.White = true)
    ∧ ((existsRun board Player.Black = false ∧ existsRun board Player.White = false) →
      (checkWin board observer).1 = none) := by
  constructor
  · intro h
    rcases hB : (checkWinScan board).blackWins
    · rcases hW : (checkWinScan board).whiteWins
      · exfalso
        apply h
        unfold checkWin
        dsimp only
        rw [hB, hW]
        rfl
      · exact Or.inr ((checkWinScan_flag_iff board Player.White).mp hW)
    · exact Or.inl ((checkWinScan_flag_iff board Player.Black).mp hB)
  · rintro ⟨hb, hw⟩
    have hB : (checkWinScan board).blackWins = false := by
      rcases hflag : (checkWinScan board).blackWins
      · rfl
      · rw [(checkWinScan_flag_iff board Player.Black).mp hflag] at hb
        exact absurd hb (by simp)
    have hW : (checkWinScan board).whiteWins = false := by
      rcases hflag : (checkWinScan board).whiteWins
      · rfl
      · rw [(checkWinScan_flag_iff board Player.White).mp hflag] at hw
        exact absurd hw (by simp)
    unfold checkWin
    dsimp only
    rw [hB, hW]
    rfl

/-- Claim C3, witness: the single-Black-row board has a reported winner, and
the theorem yields a run of five resolved stones for one of the colors. -/
theorem claim_C3_witness :
    (checkWin rowBoard none).1 ≠ none
    ∧ (existsRun rowBoard Player.Black = true ∨ existsRun rowBoard Player.White = true) :=
  ⟨by decide, (claim_C3 rowBoard none).1 (by decide)⟩

/-! ## Claim C8: shape of the reported winning line -/

/-- Claim C8, counterexample: on the board where two Black runs cross at the
scan origin, the reported winner is Black but the reported `winningLine`
holds 10 coordinates, not exactly 5. -/
theorem claim_C8_counterexample :
    (checkWin crossBoard none).1 = some Player.Black
    ∧ ((checkWin crossBoard none).2.map List.length) = some 10 := by
  constructor
  · decide
  · decide

/-- Claim C8, amended: whenever `checkWin` reports a winner, a winning line
is reported, and it is a non-empty concatenation of 5-cell windows (its
length is a positive multiple of 5): exactly 5 coordinates when a single
direction completes at the winner's first winning scan cell, and one window
per completing direction otherwise. -/
theorem claim_C8 (board : BoardState) (observer : Option Player) (p : Player)
    (h : (checkWin board observer).1 = some p) :
    ∃ l, (checkWin board observer).2 = some l ∧ l ≠ [] ∧ 5 ∣ l.length := by
  have hflag := checkWin_winner_flag board observer p h
  have hInv := scanRows_linesInv board (List.range BOARD_SIZE) initScan
    (by refine ⟨?_, ?_, ?_, ?_⟩ <;> simp [initScan])
  obtain ⟨hb, hw, hbn, hwn⟩ := hInv
  cases p
  · exact ⟨_, checkWin_line_black board observer h, hbn hflag, hb⟩
  · exact ⟨_, checkWin_line_white board observer h, hwn hflag, hw⟩

/-- Claim C8, witness: the single-row Black board reports winner Black with
a winning line that is present, non-empty, and of length a multiple of 5. -/
theorem claim_C8_witness :
    (checkWin rowBoard none).1 = some Player.Black
    ∧ ∃ l, (checkWin rowBoard none).2 = some l ∧ l ≠ [] ∧ 5 ∣ l.length :=
  ⟨by decide, claim_C8 rowBoard none Player.Black (by decide)⟩

/-! ## Helper lemmas about the heuristic move selection -/

lemma maxOfList_eq_none_iff (l : List ℚ) : maxOfList l = none ↔ l = [] := by
  cases l with
  | nil => simp [maxOfList]
  | cons x xs =>
    simp only [maxOfList]
    constructor
    · intro h
      split at h <;> simp_all
    · intro h
      simp at h

lemma maxOfList_concat_none (l : List ℚ) (a : ℚ) (h : maxOfList l = none) :
    maxOfList (l ++ [a]) = some a := by
  rw [maxOfList_eq_none_iff] at h
  subst h
  rfl

lemma maxOfList_concat_some (l : List ℚ) (a m : ℚ) (h : maxOfList l = some m) :
    maxOfList (l ++ [a]) = some (max m a) := by
  induction l generalizing m with
  | nil => simp [maxOfList] at h
  | cons x xs ih =>
    simp only [maxOfList] at h
    rcases hxs : maxOfList xs with _ | m2
    · rw [hxs] at h
      have hx : x = m := by simpa using h
      subst hx
      have hnil := (maxOfList_eq_none_iff xs).mp hxs
      subst hnil
      simp [maxOfList]
    · rw [hxs] at h
      have hx : max x m2 = m := by simpa using h
      show maxOfList (x :: (xs ++ [a])) = some (max m a)
      simp only [maxOfList]
      rw [ih m2 hxs]
      rw [← hx]
      rw [max_assoc]

lemma cpuInv_init (board : BoardState) (cpuColor : Player) :
    cpuInv board cpuColor [] { maxScore := none, bestMoves := [] } := by
  refine ⟨rfl, ?_, ?_, ?_⟩
  · intro rc h
    simp at h
  · simp
  · intro m h
    simp at h

lemma cpuInv_step (board : BoardState) (cpuColor : Player) (pre : List (Nat × Nat))
    (acc : CpuAcc) (x : Nat × Nat) (h : cpuInv board cpuColor pre acc) :
    cpuInv board cpuColor (pre ++ [x]) (stepCell board cpuColor acc x) := by
  obtain ⟨h1, h2, h3, h4⟩ := h
  by_cases hocc : (cellAtNat board x.1 x.2).isSome
  · have hfilter : (pre ++ [x]).filter (fun rc => decide (cellAtNat board rc.1 rc.2 = none))
        = pre.filter (fun rc => decide (cellAtNat board rc.1 rc.2 = none)) := by
      rw [List.filter_append]
      obtain ⟨a, ha⟩ := Option.isSome_iff_exists.mp hocc
      simp [List.filter, ha]
    have hstep : stepCell board cpuColor acc x = acc := by
      unfold stepCell
      rw [if_pos hocc]
    rw [hstep]
    refine ⟨by rw [h1, hfilter], ?_, h3, h4⟩
    · intro rc hrc
      exact ⟨List.mem_append_left _ (h2 rc hrc).1, (h2 rc hrc).2⟩
  · have hemp : cellAtNat board x.1 x.2 = none := by
      rcases hcell : cellAtNat board x.1 x.2 with _ | st
      · rfl
      · rw [hcell] at hocc
        simp at hocc
    have hfilter : (pre ++ [x]).filter (fun rc => decide (cellAtNat board rc.1 rc.2 = none))
        = pre.filter (fun rc => decide (cellAtNat board rc.1 rc.2 = none)) ++ [x] := by
      rw [List.filter_append]
      simp [List.filter, hemp]
    have hmap : ((pre ++ [x]).filter (fun rc => decide (cellAtNat board rc.1 rc.2 = none))).map
          (fun rc => totalScore board cpuColor rc.1 rc.2)
        = (pre.filter (fun rc => decide (cellAtNat board rc.1 rc.2 = none))).map
            (fun rc => totalScore board cpuColor rc.1 rc.2)
          ++ [totalScore board cpuColor x.1 x.2] := by
      rw [hfilter, List.map_append]
      rfl
    rcases hmax : acc.maxScore with _ | m
    · have hstep : stepCell board cpuColor acc x =
          { maxScore := some (totalScore board cpuColor x.1 x.2), bestMoves := [x] } := by
        unfold stepCell
        rw [if_neg hocc, hmax]
      rw [hstep]
      rw [hmax] at h1
      refine ⟨?_, ?_, by simp, ?_⟩
      · rw [hmap, maxOfList_concat_none _ _ h1.symm]
      · intro rc hrc
        simp at hrc
        subst hrc
        exact ⟨List.mem_append_right _ (by simp), hemp⟩
      · intro m hm rc hrc
        simp at hrc hm
        subst hrc
        rw [← hm]
        simp
    · rw [hmax] at h1
      by_cases hlt : m < totalScore board cpuColor x.1 x.2
      · have hstep : stepCell board cpuColor acc x =
            { maxScore := some (totalScore board cpuColor x.1 x.2), bestMoves := [x] } := by
          unfold stepCell
          rw [if_neg hocc, hmax]
          dsimp only
          rw [if_pos hlt]
        rw [hstep]
        refine ⟨?_, ?_, by simp, ?_⟩
        · rw [hmap, maxOfList_concat_some _ _ _ h1.symm]
          rw [max_eq_right (le_of_lt hlt)]
        · intro rc hrc
          simp at hrc
          subst hrc
          exact ⟨List.mem_append_right _ (by simp), hemp⟩
        · intro m2 hm2 rc hrc
          simp at hrc hm2
          subst hrc
          rw [← hm2]
          simp
      · by_cases hnear : |totalScore board cpuColor x.1 x.2 - m| < 1/1000
        · have hstep : stepCell board cpuColor acc x =
              { acc with bestMoves := acc.bestMoves ++ [x] } := by
            unfold stepCell
            rw [if_neg hocc, hmax]
            dsimp only
            rw [if_neg hlt, if_pos hnear]
          rw [hstep]
          refine ⟨?_, ?_, ?_, ?_⟩
          · show acc.maxScore = _
            rw [hmax, hmap, maxOfList_concat_some _ _ _ h1.symm]
            rw [max_eq_left (not_lt.mp hlt)]
          · intro rc hrc
            rcases List.mem_append.mp hrc with hin | hin
            · exact ⟨List.mem_append_left _ (h2 rc hin).1, (h2 rc hin).2⟩
            · simp at hin
              subst hin
              exact ⟨List.mem_append_right _ (by simp), hemp⟩
          · show acc.bestMoves ++ [x] = [] ↔ acc.maxScore = none
            simp [hmax]
          · intro m2 hm2 rc hrc
            have hm2e : m2 = m := by
              rw [hmax] at hm2
              simpa using hm2.symm
            subst hm2e
            rcases List.mem_append.mp hrc with hin | hin
            · exact h4 m2 hmax rc hin
            · simp at hin
              subst hin
              exact hnear
        · have hstep : stepCell board cpuColor acc x = acc := by
            unfold stepCell
            rw [if_neg hocc, hmax]
            dsimp only
            rw [if_neg hlt, if_neg hnear]
          rw [hstep]
          refine ⟨?_, ?_, h3, h4⟩
          · rw [hmax, hmap, maxOfList_concat_some _ _ _ h1.symm]
            rw [max_eq_left (not_lt.mp hlt)]
          · intro rc hrc
            exact ⟨List.mem_append_left _ (h2 rc hrc).1, (h2 rc hrc).2⟩

lemma cpuInv_foldl (board : BoardState) (cpuColor : Player) :
    ∀ (l pre : List (Nat × Nat)) (acc : CpuAcc), cpuInv board cpuColor pre acc →
      cpuInv board cpuColor (pre ++ l) (l.foldl (stepCell board cpuColor) acc) := by
  intro l
  induction l with
  | nil => intro pre acc h; simpa using h
  | cons x xs ih =>
    intro pre acc h
    have hstep := cpuInv_step board cpuColor pre acc x h
    have := ih (pre ++ [x]) _ hstep
    simpa [List.append_assoc] using this

/-! ## Claim C9: heuristic move selection -/

/-- Claim C9: on a board with no empty cell `getCpuMove` returns `none`; on a
board with at least one empty cell it returns an empty cell whose total score
(attack weight 1.0, defense weight 1.2, centrality bonus, with the
line-strength evaluator stopping below probability 0.4, at empty cells and at
the edge) lies within 0.001 of the maximum total score over all empty cells,
for every value of the random tie-break index. -/
theorem claim_C9 (board : BoardState) (cpuColor : Player) (pick : Nat) :
    (emptyCellsList board = [] → getCpuMove board cpuColor pick = none)
    ∧ (emptyCellsList board ≠ [] →
        ∃ rc M, getCpuMove board cpuColor pick = some rc
          ∧ rc ∈ emptyCellsList board
          ∧ maxOfList (cpuScores board cpuColor) = some M
          ∧ |totalScore board cpuColor rc.1 rc.2 - M| < 1/1000) := by
  have hInv := cpuInv_foldl board cpuColor (allCellsList board.length) []
    { maxScore := none, bestMoves := [] } (cpuInv_init board cpuColor)
  rw [List.nil_append] at hInv
  have hacc : getCpuMoveAcc board cpuColor
      = (allCellsList board.length).foldl (stepCell board cpuColor)
          { maxScore := none, bestMoves := [] } := rfl
  rw [← hacc] at hInv
  obtain ⟨h1, h2, h3, h4⟩ := hInv
  have hscores : maxOfList (cpuScores board cpuColor)
      = (getCpuMoveAcc board cpuColor).maxScore := by
    rw [h1]
    rfl
  constructor
  · intro hempty
    have hnone : (getCpuMoveAcc board cpuColor).maxScore = none := by
      rw [← hscores, cpuScores, hempty]
      rfl
    have hbm : (getCpuMoveAcc board cpuColor).bestMoves = [] := h3.mpr hnone
    unfold getCpuMove
    dsimp only
    rw [hbm]
    rfl
  · intro hne
    have hsne : cpuScores board cpuColor ≠ [] := by
      unfold cpuScores
      simp [hne]
    rcases hM : maxOfList (cpuScores board cpuColor) with _ | M
    · exact absurd ((maxOfList_eq_none_iff _).mp hM) hsne
    · have hmax : (getCpuMoveAcc board cpuColor).maxScore = some M := by
        rw [← hscores, hM]
      have hbm : (getCpuMoveAcc board cpuColor).bestMoves ≠ [] := by
        intro hcontra
        rw [h3.mp hcontra] at hmax
        simp at hmax
      have hlen : 0 < (getCpuMoveAcc board cpuColor).bestMoves.length :=
        List.length_pos.mpr hbm
      have hidx : pick % (getCpuMoveAcc board cpuColor).bestMoves.length
          < (getCpuMoveAcc board cpuColor).bestMoves.length :=
        Nat.mod_lt pick hlen
      have hget : getCpuMove board cpuColor pick
          = some ((getCpuMoveAcc board cpuColor).bestMoves.get
              ⟨pick % (getCpuMoveAcc board cpuColor).bestMoves.length, hidx⟩) := by
        unfold getCpuMove
        dsimp only
        rw [if_neg (by simp [hbm])]
        exact List.getElem?_eq_getElem hidx
      set rc := (getCpuMoveAcc board cpuColor).bestMoves.get
        ⟨pick % (getCpuMoveAcc board cpuColor).bestMoves.length, hidx⟩ with hrc
      have hmem : rc ∈ (getCpuMoveAcc board cpuColor).bestMoves :=
        List.get_mem _ _ hidx
      refine ⟨rc, M, hget, ?_, rfl, h4 M hmax rc hmem⟩
      unfold emptyCellsList
      exact List.mem_filter.mpr ⟨(h2 rc hmem).1, by simp [(h2 rc hmem).2]⟩

/-- Claim C9, witness: on the 2-by-2 board with one stone, the heuristic
returns an empty cell of near-maximal score. -/
theorem claim_C9_witness :
    emptyCellsList cpuBoard ≠ []
    ∧ ∃ rc M, getCpuMove cpuBoard Player.Black 0 = some rc
        ∧ rc ∈ emptyCellsList cpuBoard
        ∧ maxOfList (cpuScores cpuBoard Player.Black) = some M
        ∧ |totalScore cpuBoard Player.Black rc.1 rc.2 - M| < 1/1000 :=
  ⟨by decide, (claim_C9 cpuBoard Player.Black 0).2 (by decide)⟩

/-! ## Helper lemmas for the probability-value invariant -/

lemma goodProb_STONE_PROBABILITIES (p : Player) (i : Fin 2) :
    goodProb (STONE_PROBABILITIES p i) := by
  cases p <;> by_cases hi : i = (0 : Fin 2) <;>
    simp [STONE_PROBABILITIES, goodProb, hi]

lemma mem_getD_row (b : BoardState) (row : Nat) (cell : CellState)
    (h : cell ∈ b.getD row []) : ∃ r ∈ b, cell ∈ r := by
  rw [List.getD_eq_getElem?_getD] at h
  rcases hr : b[row]? with _ | r
  · rw [hr] at h
    simp at h
  · rw [hr] at h
    exact ⟨r, List.getElem?_mem hr, h⟩

lemma goodBoard_setCell (b : BoardState) (row col : Nat) (v : CellState)
    (hb : goodBoard b) (hv : ∀ st : Stone, v = some st → goodProb st.probability) :
    goodBoard (setCell b row col v) := by
  intro row2 hrow2 cell hcell st hst
  rcases List.mem_or_eq_of_mem_set hrow2 with hin | rfl
  · exact hb row2 hin cell hcell st hst
  · rcases List.mem_or_eq_of_mem_set hcell with hin2 | rfl
    · obtain ⟨r, hr, hcr⟩ := mem_getD_row b row cell hin2
      exact hb r hr cell hcr st hst
    · exact hv st hst

lemma goodRow_collapseCells (draw : Nat → Nat → ℚ) (r : Nat) :
    ∀ (c : Nat) (row : List CellState),
      (∀ cell ∈ row, ∀ st : Stone, cell = some st → goodProb st.probability) →
      ∀ cell ∈ collapseCells draw r c row, ∀ st : Stone, cell = some st →
        goodProb st.probability := by
  intro c row
  induction row generalizing c with
  | nil => intro _ cell h; simp [collapseCells] at h
  | cons cell0 rest ih =>
    intro hgood cell h st hst
    simp only [collapseCells, List.mem_cons] at h
    rcases h with rfl | hmem
    · cases hc0 : cell0 with
      | none => rw [hc0] at hst; simp [collapseCell] at hst
      | some st0 =>
        rw [hc0] at hst
        simp [collapseCell] at hst
        have := hgood cell0 (by simp) st0 hc0
        rw [← hst]
        exact this
    · exact ih (c + 1) (fun cl hcl => hgood cl (by simp [hcl])) cell hmem st hst

lemma goodBoard_collapseBoard (draw : Nat → Nat → ℚ) (b : BoardState)
    (hb : goodBoard b) : goodBoard (collapseBoard draw b) := by
  unfold collapseBoard
  unfold goodBoard at hb ⊢
  generalize 0 = r0
  induction b generalizing r0 with
  | nil => intro row h; simp [collapseRowsFrom] at h
  | cons row rest ih =>
    intro row2 hrow2
    simp only [collapseRowsFrom, List.mem_cons] at hrow2
    rcases hrow2 with rfl | hmem
    · exact goodRow_collapseCells draw r0 0 row (fun cl hcl => hb row (by simp) cl hcl)
    · exact ih (fun rw hrw cl hcl => hb rw (by simp [hrw]) cl hcl) (r0 + 1) row2 hmem

lemma goodBoard_revertBoard (b : BoardState) (hb : goodBoard b) :
    goodBoard (revertBoard b) := by
  intro row2 hrow2 cell hcell st hst
  obtain ⟨row0, hrow0, rfl⟩ := List.mem_map.mp hrow2
  obtain ⟨cell0, hcell0, rfl⟩ := List.mem_map.mp hcell
  cases hc0 : cell0 with
  | none => rw [hc0] at hst; simp [clearObserved] at hst
  | some st0 =>
    rw [hc0] at hst
    simp [clearObserved] at hst
    have := hb row0 hrow0 cell0 hcell0 st0 hc0
    rw [← hst]
    exact this

lemma undoWhileFuel_mem (cpu : Player) :
    ∀ (fuel : Nat) (st : GameState) (h : List GameState),
      ((undoWhileFuel cpu fuel st h).1 = st ∨ (undoWhileFuel cpu fuel st h).1 ∈ h)
      ∧ (∀ s ∈ (undoWhileFuel cpu fuel st h).2, s ∈ h) := by
  intro fuel
  induction fuel with
  | zero =>
    intro st h
    exact ⟨Or.inl rfl, fun s hs => hs⟩
  | succ fuel ih =>
    intro st h
    rcases List.eq_nil_or_concat h with rfl | ⟨L, b, rfl⟩
    · exact ⟨Or.inl rfl, fun s hs => hs⟩
    · simp only [List.concat_eq_append]
      by_cases hbad : st.currentPlayer = cpu ∨ st.isStonePlaced = true
      · have hred : undoWhileFuel cpu (fuel + 1) st (L ++ [b])
            = undoWhileFuel cpu fuel b L := by
          unfold undoWhileFuel
          rw [List.getLast?_concat, List.dropLast_concat]
          simp only [hbad, if_pos]
          split
          · rfl
          · rfl
        rw [hred]
        rcases ih b L with ⟨h1, h2⟩
        constructor
        · rcases h1 with h1 | h1
          · exact Or.inr (by simp [h1])
          · exact Or.inr (by simp [h1])
        · intro s hs
          exact List.mem_append_left _ (h2 s hs)
      · have hred : undoWhileFuel cpu (fuel + 1) st (L ++ [b]) = (st, L ++ [b]) := by
          unfold undoWhileFuel
          rw [List.getLast?_concat]
          simp [hbad]
        rw [hred]
        exact ⟨Or.inl rfl, fun s hs => hs⟩

lemma goodHistory_append (es : EngineState) (s : GameState)
    (hh : ∀ s2 ∈ es.history, goodBoard s2.board) (hs : goodBoard s.board) :
    ∀ s2 ∈ es.history ++ [s], goodBoard s2.board := by
  intro s2 hs2
  rcases List.mem_append.mp hs2 with hin | hin
  · exact hh s2 hin
  · simp at hin
    subst hin
    exact hs

lemma good_placeStone (myColor : Option Player) (row col : Nat) (es : EngineState)
    (h : goodEngineState es) : goodEngineState (placeStone myColor row col es) := by
  obtain ⟨hg, hh⟩ := h
  unfold placeStone
  dsimp only
  split
  · exact ⟨hg, hh⟩
  split
  · exact ⟨hg, hh⟩
  split
  · exact ⟨hg, hh⟩
  · constructor
    · refine goodBoard_setCell _ row col _ hg ?_
      intro st hst
      injection hst with h2
      rw [← h2]
      exact goodProb_STONE_PROBABILITIES es.game.currentPlayer es.game.selectedStoneIndex
    · show ∀ s2 ∈ (if es.game.gameMode ≠ GameMode.Online
          then es.history ++ [es.game] else es.history), goodBoard s2.board
      split
      · exact goodHistory_append es es.game hh hg
      · exact hh

lemma good_endTurn (myColor : Option Player) (es : EngineState)
    (h : goodEngineState es) : goodEngineState (endTurn myColor es) := by
  obtain ⟨hg, hh⟩ := h
  unfold endTurn
  dsimp only
  split
  · exact ⟨hg, hh⟩
  · constructor
    · exact hg
    · show ∀ s2 ∈ (if es.game.gameMode ≠ GameMode.Online
          then es.history ++ [es.game] else es.history), goodBoard s2.board
      split
      · exact goodHistory_append es es.game hh hg
      · exact hh

lemma good_resolve (draw : Nat → Nat → ℚ) (es : EngineState)
    (h : goodEngineState es) : goodEngineState (observeBoardResolve draw es) := by
  obtain ⟨hg, hh⟩ := h
  unfold observeBoardResolve
  dsimp only
  split
  · exact ⟨hg, hh⟩
  · split
    · exact ⟨goodBoard_collapseBoard draw _ hg, hh⟩
    · exact ⟨goodBoard_collapseBoard draw _ hg, hh⟩

lemma good_observe (myColor : Option Player) (draw : Nat → Nat → ℚ) (es : EngineState)
    (h : goodEngineState es) : goodEngineState (observeBoard myColor draw es) := by
  obtain ⟨hg, hh⟩ := h
  unfold observeBoard
  dsimp only
  split
  · exact ⟨hg, hh⟩
  split
  · exact ⟨hg, hh⟩
  split
  · exact ⟨hg, hh⟩
  split
  · exact ⟨hg, hh⟩
  · apply good_resolve
    constructor
    · exact hg
    · show ∀ s2 ∈ (if es.game.gameMode ≠ GameMode.Online
          then es.history ++ [es.game] else es.history), goodBoard s2.board
      split
      · exact goodHistory_append es es.game hh hg
      · exact hh

lemma good_revertEffect (es : EngineState) (h : goodEngineState es) :
    goodEngineState (noWinnerRevertEffect es) := by
  obtain ⟨hg, hh⟩ := h
  unfold noWinnerRevertEffect
  dsimp only
  split
  · exact ⟨hg, hh⟩
  · exact ⟨goodBoard_revertBoard _ hg, hh⟩

lemma good_revertTurnEnd (es : EngineState) (h : goodEngineState es) :
    goodEngineState (revertTurnEndEffect es) := by
  obtain ⟨hg, hh⟩ := h
  unfold revertTurnEndEffect
  dsimp only
  split
  · exact ⟨hg, hh⟩
  · exact ⟨hg, hh⟩

lemma good_cpuPlaceStone (selRand : Fin 2) (pick : Nat) (es : EngineState)
    (h : goodEngineState es) : goodEngineState (cpuPlaceStone selRand pick es) := by
  obtain ⟨hg, hh⟩ := h
  unfold cpuPlaceStone
  dsimp only
  split
  · split
    · exact ⟨hg, goodHistory_append es es.game hh hg⟩
    · constructor
      · refine goodBoard_setCell _ _ _ _ hg ?_
        intro st hst
        injection hst with h2
        rw [← h2]
        exact goodProb_STONE_PROBABILITIES es.game.currentPlayer _
      · exact goodHistory_append es es.game hh hg
  · exact ⟨hg, hh⟩

lemma good_undo (es : EngineState) (h : goodEngineState es) :
    goodEngineState (undo es) := by
  obtain ⟨hg, hh⟩ := h
  unfold undo performUndo
  split
  · exact ⟨hg, hh⟩
  · split
    · exact ⟨hg, hh⟩
    · rename_i st0 h0 heq
      have hpair : es.history.getLast? = some st0 ∧ es.history.dropLast = h0 := by
        have h1 := congrArg Prod.fst heq
        have h2 := congrArg Prod.snd heq
        exact ⟨h1, h2⟩
      have hst0 : st0 ∈ es.history := List.mem_of_getLast?_eq_some hpair.1
      have hsub : ∀ s ∈ h0, s ∈ es.history := by
        intro s hs
        rw [← hpair.2] at hs
        exact List.dropLast_subset es.history hs
      split
      · rename_i cpu hmode hcc
        obtain ⟨hres1, hres2⟩ := undoWhileFuel_mem cpu h0.length st0 h0
        constructor
        · rcases hres1 with hres1 | hres1
          · show goodBoard (undoWhileFuel cpu h0.length st0 h0).1.board
            rw [hres1]
            exact hh st0 hst0
          · show goodBoard (undoWhileFuel cpu h0.length st0 h0).1.board
            exact hh _ (hsub _ hres1)
        · intro s2 hs2
          exact hh s2 (hsub s2 (hres2 s2 hs2))
      · exact ⟨hh st0 hst0, fun s hs => hh s (hsub s hs)⟩

lemma goodBoard_empty : goodBoard (List.replicate BOARD_SIZE (List.replicate BOARD_SIZE none)) := by
  intro row hrow cell hcell st hst
  have : row = List.replicate BOARD_SIZE none := List.eq_of_mem_replicate hrow
  subst this
  have : cell = none := List.eq_of_mem_replicate hcell
  subst this
  simp at hst

lemma good_resetGame (mode : Option GameMode) (cpuColor : Option (Option Player))
    (es : EngineState) : goodEngineState (resetGame mode cpuColor es) := by
  constructor
  · exact goodBoard_empty
  · intro s hs
    simp [resetGame] at hs

lemma cellAtNat_setCell_ne (b : BoardState) (row col r c : Nat) (v : CellState)
    (h : ¬(r = row ∧ c = col)) :
    cellAtNat (setCell b row col v) r c = cellAtNat b r c := by
  unfold cellAtNat setCell
  by_cases hr : r = row
  · subst hr
    have hc : col ≠ c := by
      intro hcc
      exact h ⟨rfl, hcc.symm⟩
    by_cases hlen : r < b.length
    · have hrow : (b.set r ((b.getD r []).set col v)).getD r []
          = (b.getD r []).set col v := by
        rw [List.getD_eq_getElem?_getD, List.getElem?_set_self hlen]
        rfl
      rw [hrow]
      rw [List.getD_eq_getElem?_getD, List.getElem?_set_ne hc,
        ← List.getD_eq_getElem?_getD]
    · rw [List.set_eq_of_length_le (Nat.le_of_not_lt hlen)]
  · have hne : row ≠ r := fun heq => hr heq.symm
    have hrow : (b.set row ((b.getD row []).set col v)).getD r [] = b.getD r [] := by
      rw [List.getD_eq_getElem?_getD, List.getElem?_set_ne hne,
        ← List.getD_eq_getElem?_getD]
    rw [hrow]

lemma good_step (es es2 : EngineState) (h : goodEngineState es)
    (hstep : EngineStep es es2) : goodEngineState es2 := by
  cases hstep with
  | place myColor row col _ => exact good_placeStone myColor row col es h
  | select index _ => exact ⟨h.1, h.2⟩
  | toggle _ => exact ⟨h.1, h.2⟩
  | endTurnStep myColor _ => exact good_endTurn myColor es h
  | observe myColor draw _ => exact good_observe myColor draw es h
  | resolve draw _ => exact good_resolve draw es h
  | revertStep _ => exact good_revertEffect es h
  | revertTurnEnd _ => exact good_revertTurnEnd es h
  | cpu selRand pick _ => exact good_cpuPlaceStone selRand pick es h
  | undoStep _ => exact good_undo es h
  | reset mode cpuColor _ => exact good_resetGame mode cpuColor es

/-! ## Claim C10: the four fixed stone probabilities -/

/-- Claim C10: in every reachable hook state, every stone on the board and
on every history frame carries one of the four probabilities of
`STONE_PROBABILITIES` (0.9 / 0.7 for a Black placement, 0.3 / 0.1 for a
White placement); moreover collapse and revert never change any stone's
probability, and placement never touches an occupied cell's stone. -/
theorem claim_C10 :
    (∀ es : EngineState, Reachable es → goodEngineState es)
    ∧ (∀ (draw : Nat → Nat → ℚ) (b : BoardState),
        probGrid (collapseBoard draw b) = probGrid b)
    ∧ (∀ b : BoardState, probGrid (revertBoard b) = probGrid b)
    ∧ (∀ (myColor : Option Player) (row col : Nat) (es : EngineState)
        (r c : Nat) (st : Stone),
        cellAtNat es.game.board r c = some st →
        cellAtNat (placeStone myColor row col es).game.board r c = some st) := by
  refine ⟨?_, probGrid_collapseBoard, probGrid_revertBoard, ?_⟩
  · intro es hre
    induction hre with
    | refl =>
      constructor
      · exact goodBoard_empty
      · intro s hs
        simp [initialEngineState] at hs
    | tail hsteps hstep ih => exact good_step _ _ ih hstep
  · intro myColor row col es r c st hcell
    unfold placeStone
    dsimp only
    split
    · exact hcell
    rename_i hguard1
    split
    · exact hcell
    rename_i hguard2
    split
    · exact hcell
    · show cellAtNat (setCell es.game.board row col _) r c = some st
      have hne : ¬(r = row ∧ c = col) := by
        rintro ⟨rfl, rfl⟩
        apply hguard2
        right
        right
        right
        right
        rw [hcell]
        rfl
      rw [cellAtNat_setCell_ne _ _ _ _ _ _ hne]
      exact hcell

/-- Claim C10, witness: the initial state is reachable and satisfies the
probability invariant, and a placement elsewhere leaves the stone at (7, 7)
untouched. -/
theorem claim_C10_witness :
    goodEngineState initialEngineState
    ∧ cellAtNat placedEngineState.game.board 7 7 = some { probability := 9/10 }
    ∧ cellAtNat (placeStone none 0 0 placedEngineState).game.board 7 7
        = some { probability := 9/10 } :=
  ⟨claim_C10.1 initialEngineState Relation.ReflTransGen.refl,
   by decide,
   claim_C10.2.2.2 none 0 0 placedEngineState 7 7 { probability := 9/10 } (by decide)⟩
